import Mathlib

/-!
# TalentMatch: the two-stage candidate ranking endpoint

A shallow embedding of `POST /api/recommend-applicants`
(`src/app/api/recommend-applicants/route.js`).

The handler talks to five collaborators (the session lookup, the `jobs`,
`user_profiles` and `resumes` tables, the vector store and the reranker).
Each collaborator is a field of `World`: a function from the arguments of
the call to what the call gives back.  The handler is then a pure function
of the world and the request body which returns the response together with
the list of collaborator calls it issued, in order.

JavaScript values are embedded as follows.
* `null` / `undefined` fields are `Option`; `a || b` on strings is `orStr`.
* Numbers that are relevance scores are finite IEEE-754 doubles; every such
  double is a rational number and is embedded as that rational (`ℚ`).
  Arithmetic on them (`0.5 - index * 0.01`) rounds to the nearest double,
  ties to even (`roundBinary64`).
* A Supabase query never throws: it returns `{ data, error }` (`DbResult`).
  The two LangChain calls (`similaritySearch`, `compressDocuments`) may
  throw (`Except JsError`).
-/

namespace TalentMatch

/-! ## Data model -/

/-- A thrown JavaScript error (only its `message` is ever read). -/
structure JsError where
  message : String
  deriving DecidableEq, Repr

/-- One row of `user_profiles` (the columns the handler reads). -/
structure Profile where
  id : String
  full_name : Option String
  location : Option String
  availability_status : Option String
  job_title : Option String
  experience_level : Option String
  bio : Option String
  skills : Option (List String)
  deriving DecidableEq, Repr

/-- One conversation turn `{ role, content }`. -/
structure Turn where
  role : String
  content : String
  deriving DecidableEq, Repr

/-- The columns selected from `jobs`: `title, description, required_skills`. -/
structure Job where
  title : String
  description : String
  required_skills : Option (List String)
  deriving DecidableEq, Repr

/-- The `feedback` JSON column of a resume. -/
structure Feedback where
  summary : Option String
  deriving DecidableEq, Repr

/-- The columns selected from `resumes`: `user_id, feedback`. -/
structure Resume where
  user_id : String
  feedback : Option Feedback
  deriving DecidableEq, Repr

/-- The `metadata` of a vector-store hit. -/
structure VectorMetadata where
  id : Option String
  deriving DecidableEq, Repr

/-- A vector-store hit; only `result.metadata?.id` is read. -/
structure VectorResult where
  metadata : Option VectorMetadata
  deriving DecidableEq, Repr

/-- The `metadata: { id: candidate.id }` of a document sent to the reranker. -/
structure DocMetadata where
  id : String
  deriving DecidableEq, Repr

/-- A document `{ pageContent, metadata }` sent to the reranker. -/
structure Document where
  pageContent : String
  metadata : DocMetadata
  deriving DecidableEq, Repr

/-- The `metadata` of a reranked document: the id it was sent with and the
score the reranker attached. -/
structure RerankMetadata where
  id : String
  relevanceScore : ℚ
  deriving DecidableEq, Repr

/-- A document as returned by `rerank.compressDocuments`. -/
structure RerankedDoc where
  metadata : RerankMetadata
  deriving DecidableEq, Repr

/-- An entry of the response's `candidates` list. -/
structure RankedCandidate where
  id : String
  profile : Profile
  summary : Option String
  skills : List String
  relevanceScore : ℚ
  deriving DecidableEq, Repr

/-- The `pipeline` trace of a response. -/
structure Pipeline where
  stage1 : String
  stage2 : String
  deriving DecidableEq, Repr

/-- The JSON body of a response and its HTTP status.  A field that the body
does not have is `none`. -/
structure Response where
  status : Nat
  error : Option String
  details : Option String
  candidates : Option (List RankedCandidate)
  conversationHistory : Option (List Turn)
  pipeline : Option Pipeline
  deriving DecidableEq, Repr

/-- The parsed request body `{ query, jobId, conversationHistory = [] }`. -/
structure Request where
  query : Option String
  jobId : Option String
  conversationHistory : List Turn
  deriving DecidableEq, Repr

/-- The `error` object of a Supabase result. -/
structure DbError where
  message : String
  deriving DecidableEq, Repr

/-- What a Supabase query resolves to: `{ data, error }`. -/
structure DbResult (α : Type) where
  data : Option α
  error : Option DbError

/-- A call issued to a collaborator, with its arguments. -/
inductive Call where
  | getUser
  | jobLookup (jobId : String)
  | similaritySearch (query : String) (k : Nat)
  | bulkLookup (ids : List String)
  | fullScan (limit : Nat)
  | resumeFetch (ids : List String)
  | rerank (documents : List Document) (query : String)
  deriving DecidableEq, Repr

/-- The collaborators of one request: the environment variable, the session
and, for every call the handler can make, the answer to it. -/
structure World where
  COHERE_API_KEY : Option String
  user : Option String
  jobSingle : String → Option Job
  similaritySearch : String → Nat → Except JsError (List VectorResult)
  profilesIn : List String → DbResult (List Profile)
  applicantsLimit : Nat → DbResult (List Profile)
  resumesIn : List String → Option (List Resume)
  compressDocuments : List Document → String → Except JsError (List RerankedDoc)

/-! ## JavaScript helpers -/

/-- The code points `String.prototype.trim` removes: the ECMAScript
`WhiteSpace` and `LineTerminator` productions. -/
def isJsWhiteSpace (c : Char) : Bool :=
  c.val.toNat ∈ [0x09, 0x0A, 0x0B, 0x0C, 0x0D, 0x20, 0xA0, 0x1680, 0x2028, 0x2029,
    0x202F, 0x205F, 0x3000, 0xFEFF] || (0x2000 ≤ c.val.toNat && c.val.toNat ≤ 0x200A)

/-- The JavaScript `s.trim()`. -/
def jsTrim (s : String) : String :=
  String.mk ((s.data.dropWhile isJsWhiteSpace).reverse.dropWhile isJsWhiteSpace).reverse

/-- The JavaScript `a || b` for a nullable string `a` and a string `b`: `null`,
`undefined` and the empty string are falsy. -/
def orStr (a : Option String) (b : String) : String :=
  match a with
  | some s => if s = "" then b else s
  | none => b

/-- The JavaScript `a || b` for two nullable strings. -/
def orOpt (a b : Option String) : Option String :=
  match a with
  | some s => if s = "" then b else some s
  | none => b

/-- The text a template literal gives for a nullable string column. -/
def interpolate (a : Option String) : String :=
  match a with
  | some s => s
  | none => "null"

/-- The JavaScript `xs.slice(-3)`: the last three elements (all of them when
there are fewer). -/
def sliceLast3 {α : Type} (xs : List α) : List α :=
  xs.drop (xs.length - 3)

/-! ## IEEE-754 binary64 arithmetic on rationals -/

/-- The fraction `a / b` rounded to the nearest natural number, ties to even. -/
def roundHalfEven (a b : Nat) : Nat :=
  let q := a / b
  let r := a % b
  if 2 * r < b then q else if b < 2 * r then q + 1 else if q % 2 = 0 then q else q + 1

/-- The number of binary digits of `n`, found by halving at most `fuel` times. -/
def bitLength : Nat → Nat → Nat
  | 0, _ => 0
  | fuel + 1, n => if n = 0 then 0 else bitLength fuel (n / 2) + 1

/-- The binary exponent of the positive fraction `n / d`: the integer `e` with
`2 ^ e ≤ n / d < 2 ^ (e + 1)`. -/
def floorLog2 (n d : Nat) : Int :=
  let e : Int := (bitLength n n : Int) - (bitLength d d : Int)
  if 0 ≤ e then (if d * 2 ^ e.toNat ≤ n then e else e - 1)
  else (if d ≤ n * 2 ^ (-e).toNat then e else e - 1)

/-- The positive fraction `n / d` rounded to 53 significant bits (to a
multiple of `2 ^ (-1074)` in the subnormal range), ties to even. -/
def roundPos (n d : Nat) : ℚ :=
  let e := max (floorLog2 n d) (-1022)
  let s : Int := 52 - e
  if 0 ≤ s then (roundHalfEven (n * 2 ^ s.toNat) d : ℚ) / 2 ^ s.toNat
  else (roundHalfEven n (d * 2 ^ (-s).toNat) : ℚ) * 2 ^ (-s).toNat

/-- The binary64 number nearest to `q` (round to nearest, ties to even): what
a JavaScript number literal denotes and what `+`, `-`, `*` return on the exact
result.  Overflow to `Infinity` is not part of this function: the arithmetic of
the handler stays below `12`, and `parseIntDigits`, whose argument is
unbounded, tests for it itself. -/
def roundBinary64 (q : ℚ) : ℚ :=
  if q = 0 then 0
  else if 0 < q then roundPos q.num.toNat q.den
  else -roundPos (-q).num.toNat q.den

/-- The JavaScript `a * b` on numbers. -/
def jsMul (a b : ℚ) : ℚ := roundBinary64 (a * b)

/-- The JavaScript `a - b` on numbers. -/
def jsSub (a b : ℚ) : ℚ := roundBinary64 (a - b)

/-- The literal `0.005` of the score filter. -/
def scoreThreshold : ℚ := roundBinary64 (5 / 1000)

/-- The dummy score `0.5 - (index * 0.01)` of the fallback ranking. -/
def fallbackScore (index : Nat) : ℚ :=
  jsSub (roundBinary64 (5 / 10)) (jsMul (index : ℚ) (roundBinary64 (1 / 100)))

/-! ## Query composition (lines 51-71) -/

/-- The rendering of one turn: `role: content`. -/
def renderTurn (h : Turn) : String :=
  h.role ++ ": " ++ h.content

/-- Lines 52-59: the query enriched with the last three turns of the history. -/
def composeHistory (query : String) (conversationHistory : List Turn) : String :=
  if conversationHistory.length > 0 then
    let context := "\n".intercalate ((sliceLast3 conversationHistory).map renderTurn)
    "Previous context:\n" ++ context ++ "\n\nCurrent request: " ++ query
  else query

/-- Line 68: the job block.  `job.required_skills.join` throws a `TypeError`
when the column is `null`. -/
def jobContext (job : Job) : Except JsError String :=
  match job.required_skills with
  | none => .error ⟨"Cannot read properties of null (reading 'join')"⟩
  | some skills =>
    .ok ("Job Context - Title: " ++ job.title ++ ", Description: " ++ job.description ++
      ", Skills: " ++ ", ".intercalate skills ++ "\n\n")

/-- Lines 61-71: the job lookup and the job block put in front of the query.
Returns the composed query (or the error thrown) and the calls issued. -/
def addJobContext (w : World) (jobId : Option String) (enhancedQuery : String) :
    Except JsError String × List Call :=
  match jobId with
  | none => (.ok enhancedQuery, [])
  | some jid =>
    if jid = "" then (.ok enhancedQuery, [])
    else
      match w.jobSingle jid with
      | none => (.ok enhancedQuery, [Call.jobLookup jid])
      | some job =>
        match jobContext job with
        | .error e => (.error e, [Call.jobLookup jid])
        | .ok ctx => (.ok (ctx ++ enhancedQuery), [Call.jobLookup jid])

/-! ## Stage 1: candidate retrieval (lines 73-117) -/

/-- Line 74. -/
def initialPoolSize : Nat := 50

/-- Line 89: `result.metadata?.id` kept when truthy (`filter(Boolean)`). -/
def truthyId (result : VectorResult) : Option String :=
  match result.metadata with
  | none => none
  | some m =>
    match m.id with
    | none => none
    | some i => if i = "" then none else some i

/-- Lines 78-102: the vector tier.  Returns `candidates` and `stage1Method` as
they stand after the `try`/`catch`, and the calls issued. -/
def vectorTier (w : World) (enhancedQuery : String) : (List Profile × String) × List Call :=
  match w.similaritySearch enhancedQuery initialPoolSize with
  | .error _ => (([], "fallback"), [Call.similaritySearch enhancedQuery initialPoolSize])
  | .ok vectorResults =>
    if vectorResults.length > 0 then
      let applicantIds := vectorResults.filterMap truthyId
      let calls := [Call.similaritySearch enhancedQuery initialPoolSize, Call.bulkLookup applicantIds]
      match (w.profilesIn applicantIds).error, (w.profilesIn applicantIds).data with
      | none, some vectorCandidates =>
        if vectorCandidates.length > 0 then ((vectorCandidates, "vector_search"), calls)
        else (([], "fallback"), calls)
      | _, _ => (([], "fallback"), calls)
    else (([], "fallback"), [Call.similaritySearch enhancedQuery initialPoolSize])

/-- How stage 1 ends: with a pool and its method tag, with the early
empty-result response of line 113, or with the error thrown at line 111. -/
inductive Stage1 where
  | pool (candidates : List Profile) (stage1Method : String)
  | emptyResponse
  | thrown (e : JsError)
  deriving DecidableEq, Repr

/-- Lines 75-117: the vector tier, then the full scan when the pool is empty. -/
def retrieve (w : World) (enhancedQuery : String) : Stage1 × List Call :=
  let vt := vectorTier w enhancedQuery
  if vt.1.1.length = 0 then
    let calls := vt.2 ++ [Call.fullScan initialPoolSize]
    match (w.applicantsLimit initialPoolSize).error with
    | some fetchError =>
      (Stage1.thrown ⟨"Failed to fetch candidates: " ++ fetchError.message⟩, calls)
    | none =>
      match (w.applicantsLimit initialPoolSize).data with
      | none => (Stage1.emptyResponse, calls)
      | some allApplicants =>
        if allApplicants.length = 0 then (Stage1.emptyResponse, calls)
        else (Stage1.pool allApplicants "full_scan", calls)
  else (Stage1.pool vt.1.1 vt.1.2, vt.2)

/-! ## Resume enrichment (lines 119-134) -/

/-- The JavaScript `Map` from user id to summary, as an association list in
insertion order. -/
abbrev ResumeMap := List (String × String)

/-- The `resumeMap.has(key)`. -/
def ResumeMap.has (m : ResumeMap) (key : String) : Bool :=
  m.any (fun kv => kv.1 == key)

/-- The `resumeMap.get(key)`; `none` is `undefined`. -/
def ResumeMap.get (m : ResumeMap) (key : String) : Option String :=
  (m.find? (fun kv => kv.1 == key)).map (fun kv => kv.2)

/-- The `resumeMap.set(key, value)` for a key the map does not have yet. -/
def ResumeMap.set (m : ResumeMap) (key value : String) : ResumeMap :=
  m ++ [(key, value)]

/-- Line 131: `resume.feedback?.summary || ''`. -/
def resumeSummaryOf (resume : Resume) : String :=
  orStr (resume.feedback.bind (fun f => f.summary)) ""

/-- Lines 127-134: the first resume met for each user sets the entry. -/
def buildResumeMap (resumes : Option (List Resume)) : ResumeMap :=
  match resumes with
  | none => []
  | some rs =>
    rs.foldl (fun m resume =>
      if m.has resume.user_id then m else m.set resume.user_id (resumeSummaryOf resume)) []

/-! ## Stage 2: rerank (lines 136-188) -/

/-- Lines 138-148: the composite text of one candidate. -/
def pageContentOf (candidate : Profile) (resumeMap : ResumeMap) : String :=
  let resumeSummary := orStr (resumeMap.get candidate.id) "No resume summary available."
  jsTrim ("\n        Name: " ++ interpolate candidate.full_name ++
    "\n        Location: " ++ orStr candidate.location "N/A" ++
    "\n        Availability: " ++ orStr candidate.availability_status "N/A" ++
    "\n        Title: " ++ orStr candidate.job_title "N/A" ++
    "\n        Experience Level: " ++ orStr candidate.experience_level "N/A" ++
    "\n        Bio: " ++ orStr candidate.bio "" ++
    "\n        Skills: " ++ (match candidate.skills with
      | some skills => ", ".intercalate skills
      | none => "N/A") ++
    "\n        Resume Summary: " ++ resumeSummary ++
    "\n      ")

/-- Lines 137-150: one document per candidate of the pool. -/
def documentsToRerank (candidates : List Profile) (resumeMap : ResumeMap) : List Document :=
  candidates.map (fun candidate =>
    { pageContent := pageContentOf candidate resumeMap, metadata := { id := candidate.id } })

/-- Lines 158-160: the results the score filter keeps. -/
def filterResults (rerankedResults : List RerankedDoc) : List RerankedDoc :=
  rerankedResults.filter (fun result => decide (scoreThreshold ≤ result.metadata.relevanceScore))

/-- Lines 162-173, the body of the `map`: the entry of one kept result.  When
no candidate of the pool has the result's id, `candidates.find` gives
`undefined` and reading `candidate.id` throws a `TypeError`. -/
def rankResult (candidates : List Profile) (resumeMap : ResumeMap) (result : RerankedDoc) :
    Except JsError RankedCandidate :=
  match candidates.find? (fun c => c.id == result.metadata.id) with
  | none => .error ⟨"Cannot read properties of undefined (reading 'id')"⟩
  | some candidate =>
    .ok { id := candidate.id
          profile := candidate
          summary := some (orStr (orOpt (resumeMap.get candidate.id) candidate.bio) "")
          skills := candidate.skills.getD []
          relevanceScore := result.metadata.relevanceScore }

/-- Lines 178-187: the first twelve candidates of the pool with dummy scores. -/
def fallbackRanking (candidates : List Profile) (resumeMap : ResumeMap) : List RankedCandidate :=
  (candidates.take 12).mapIdx (fun index candidate =>
    { id := candidate.id
      profile := candidate
      summary := orOpt (resumeMap.get candidate.id) candidate.bio
      skills := candidate.skills.getD []
      relevanceScore := fallbackScore index })

/-- Lines 155-173: the body of the `try`: the rerank call, the score filter
and the mapping back to candidates; an error thrown by any of them. -/
def tryRerank (w : World) (candidates : List Profile) (resumeMap : ResumeMap)
    (enhancedQuery : String) : Except JsError (List RankedCandidate) :=
  match w.compressDocuments (documentsToRerank candidates resumeMap) enhancedQuery with
  | .error e => .error e
  | .ok rerankedResults => (filterResults rerankedResults).mapM (rankResult candidates resumeMap)

/-- Lines 152-188: `rankedCandidates` and `stage2Method` as they stand after
the `try`/`catch`, and the call issued. -/
def stage2 (w : World) (candidates : List Profile) (resumeMap : ResumeMap)
    (enhancedQuery : String) : (List RankedCandidate × String) × List Call :=
  let calls := [Call.rerank (documentsToRerank candidates resumeMap) enhancedQuery]
  match tryRerank w candidates resumeMap enhancedQuery with
  | .ok rankedCandidates => ((rankedCandidates, "rerank"), calls)
  | .error _ => ((fallbackRanking candidates resumeMap, "fallback_no_rerank"), calls)

/-! ## The handler (lines 13-215) -/

/-- The response `NextResponse.json({ error }, { status })`. -/
def errorResponse (status : Nat) (error : String) (details : Option String) : Response :=
  { status := status, error := some error, details := details
    candidates := none, conversationHistory := none, pipeline := none }

/-- Lines 208-214: the response of the outer `catch`. -/
def internalError (e : JsError) : Response :=
  errorResponse 500 "Internal server error" (some e.message)

/-- Line 113: the early response when no applicant exists at all. -/
def emptyResultResponse (conversationHistory : List Turn) (query : String) : Response :=
  { status := 200, error := none, details := none
    candidates := some []
    conversationHistory := some (conversationHistory ++ [{ role := "user", content := query }])
    pipeline := none }

/-- Lines 190-206: the updated history and the final response. -/
def rankedResponse (conversationHistory : List Turn) (query : String)
    (candidates : List Profile) (stage1Method : String)
    (rankedCandidates : List RankedCandidate) (stage2Method : String) : Response :=
  { status := 200, error := none, details := none
    candidates := some rankedCandidates
    conversationHistory := some (conversationHistory ++
      [{ role := "user", content := query },
       { role := "assistant"
         content := "Found " ++ toString rankedCandidates.length ++
           " candidates matching your criteria." }])
    pipeline := some
      { stage1 := stage1Method ++ " (" ++ toString candidates.length ++ " candidates)"
        stage2 := stage2Method ++ " (" ++ toString rankedCandidates.length ++
          " ranked results)" } }

/-- Lines 119-206: enrichment, stage 2 and the final response, for a
non-empty pool.  Returns the response and the calls issued. -/
def rankPool (w : World) (conversationHistory : List Turn) (query enhancedQuery : String)
    (candidates : List Profile) (stage1Method : String) : Response × List Call :=
  let candidateIds := candidates.map (fun c => c.id)
  let resumeMap := buildResumeMap (w.resumesIn candidateIds)
  let s2 := stage2 w candidates resumeMap enhancedQuery
  (rankedResponse conversationHistory query candidates stage1Method s2.1.1 s2.1.2,
    Call.resumeFetch candidateIds :: s2.2)

/-- Lines 73-206: stage 1, then either the error of the outer `catch`, the
early empty-result response, or enrichment and stage 2. -/
def retrieveAndRank (w : World) (conversationHistory : List Turn) (query enhancedQuery : String) :
    Response × List Call :=
  match retrieve w enhancedQuery with
  | (Stage1.thrown e, calls) => (internalError e, calls)
  | (Stage1.emptyResponse, calls) => (emptyResultResponse conversationHistory query, calls)
  | (Stage1.pool candidates stage1Method, calls) =>
    let r := rankPool w conversationHistory query enhancedQuery candidates stage1Method
    (r.1, calls ++ r.2)

/-- Lines 41-206: the pipeline of a validated, authenticated request. -/
def runPipeline (w : World) (conversationHistory : List Turn) (jobId : Option String)
    (query : String) : Response × List Call :=
  match addJobContext w jobId (composeHistory query conversationHistory) with
  | (.error e, calls) => (internalError e, calls)
  | (.ok enhancedQuery, calls) =>
    let r := retrieveAndRank w conversationHistory query enhancedQuery
    (r.1, calls ++ r.2)

/-- The handler `POST`: the response and the collaborator calls issued, in
order. -/
def POST (w : World) (req : Request) : Response × List Call :=
  match req.query with
  | none => (errorResponse 400 "Search query is required" none, [])
  | some query =>
    if query = "" ∨ jsTrim query = "" then
      (errorResponse 400 "Search query is required" none, [])
    else if w.COHERE_API_KEY = none ∨ w.COHERE_API_KEY = some "" then
      (errorResponse 500 "Cohere API key not configured." none, [])
    else
      match w.user with
      | none => (errorResponse 401 "Authentication required." none, [Call.getUser])
      | some _ =>
        let r := runPipeline w req.conversationHistory req.jobId query
        (r.1, Call.getUser :: r.2)

/-! ## Runs of the handler -/

deriving instance DecidableEq for Except

/-- The request passes the checks of lines 17-39 with the raw query `query`
(non-blank query, configured key, authenticated caller) and lines 51-71
compose `enhancedQuery` without throwing. -/
def Composes (w : World) (req : Request) (query enhancedQuery : String) : Prop :=
  req.query = some query ∧ ¬(query = "" ∨ jsTrim query = "") ∧
  ¬(w.COHERE_API_KEY = none ∨ w.COHERE_API_KEY = some "") ∧ w.user ≠ none ∧
  (addJobContext w req.jobId (composeHistory query req.conversationHistory)).1 =
    .ok enhancedQuery

/-- The run reaches stage 2: the query is composed and stage 1 ends with the
pool `candidates`, retrieved by `stage1Method`. -/
def ReachesRanking (w : World) (req : Request) (query enhancedQuery : String)
    (candidates : List Profile) (stage1Method : String) : Prop :=
  Composes w req query enhancedQuery ∧
  (retrieve w enhancedQuery).1 = Stage1.pool candidates stage1Method

/-- The summary map of a pool, as lines 120-134 build it. -/
def resumeMapOf (w : World) (candidates : List Profile) : ResumeMap :=
  buildResumeMap (w.resumesIn (candidates.map (fun c => c.id)))

/-- The vector tier leaves the pool empty: the search throws, returns no
result, or the bulk lookup errors or resolves no profile (lines 86-102). -/
def VectorTierFails (w : World) (enhancedQuery : String) : Prop :=
  match w.similaritySearch enhancedQuery initialPoolSize with
  | .error _ => True
  | .ok vectorResults =>
    vectorResults = [] ∨
    (w.profilesIn (vectorResults.filterMap truthyId)).error ≠ none ∨
    (w.profilesIn (vectorResults.filterMap truthyId)).data = none ∨
    (w.profilesIn (vectorResults.filterMap truthyId)).data = some []

/-! ## Sample data -/

/-- A profile with only an id, a name and a bio. -/
def sampleProfile (id : String) (bio : Option String) : Profile :=
  { id := id, full_name := some ("Candidate " ++ id), location := none
    availability_status := none, job_title := none, experience_level := none
    bio := bio, skills := none }

/-- The two profiles the sample vector search resolves. -/
def samplePool : List Profile :=
  [sampleProfile "a" (some "Backend engineer"), sampleProfile "b" none]

/-- A world where the vector tier resolves `samplePool` and the reranker
scores `a` with 0.9 and `b` with 0.001. -/
def sampleWorld : World :=
  { COHERE_API_KEY := some "key"
    user := some "recruiter"
    jobSingle := fun _ => none
    similaritySearch := fun _ _ => .ok [⟨some ⟨some "a"⟩⟩, ⟨some ⟨some "b"⟩⟩, ⟨none⟩]
    profilesIn := fun _ => ⟨some samplePool, none⟩
    applicantsLimit := fun _ => ⟨some [], none⟩
    resumesIn := fun _ => some [⟨"a", some ⟨some "Go, 8 years"⟩⟩, ⟨"a", some ⟨some "older"⟩⟩]
    compressDocuments := fun _ _ => .ok [⟨⟨"a", 9 / 10⟩⟩, ⟨⟨"b", 1 / 1000⟩⟩] }

/-- The sample request: a query, no job, an empty history. -/
def sampleRequest : Request :=
  { query := some "go developer", jobId := none, conversationHistory := [] }

/-- The sample world with a reranker that throws. -/
def rerankDownWorld : World :=
  { sampleWorld with compressDocuments := fun _ _ => .error ⟨"rerank unavailable"⟩ }

/-- Three profiles. -/
def triplePool : List Profile :=
  [sampleProfile "a" (some "Backend engineer"), sampleProfile "b" none,
    sampleProfile "c" (some "Data engineer")]

/-- A world where the vector tier resolves `triplePool` and the reranker
returns `c` with 0.9, `a` with exactly the double 0.005 and `b` with the double
just below it. -/
def thresholdWorld : World :=
  { sampleWorld with
    profilesIn := fun _ => ⟨some triplePool, none⟩
    compressDocuments := fun _ _ =>
      .ok [⟨⟨"c", 9 / 10⟩⟩, ⟨⟨"a", 5764607523034235 / 2 ^ 60⟩⟩,
        ⟨⟨"b", 5764607523034234 / 2 ^ 60⟩⟩] }

/-- A world where the vector tier resolves `triplePool` and the reranker
returns `c` with 0.3, then `b` with 0.001, then `a` with 0.9: an order that is
neither the pool's nor descending by score. -/
def unsortedRerankWorld : World :=
  { sampleWorld with
    profilesIn := fun _ => ⟨some triplePool, none⟩
    compressDocuments := fun _ _ =>
      .ok [⟨⟨"c", 3 / 10⟩⟩, ⟨⟨"b", 1 / 1000⟩⟩, ⟨⟨"a", 9 / 10⟩⟩] }

/-- The sample world with a reranker that scores every document below the
threshold. -/
def lowScoresWorld : World :=
  { sampleWorld with
    compressDocuments := fun _ _ => .ok [⟨⟨"a", 1 / 1000⟩⟩, ⟨⟨"b", 0⟩⟩] }

/-- The sample world with a vector store that throws and a full scan that
finds the sample pool. -/
def fullScanWorld : World :=
  { sampleWorld with
    similaritySearch := fun _ _ => .error ⟨"index unavailable"⟩
    applicantsLimit := fun _ => ⟨some samplePool, none⟩ }

/-- The sample world with a vector store that throws and no applicant at all. -/
def noApplicantWorld : World :=
  { sampleWorld with similaritySearch := fun _ _ => .error ⟨"index unavailable"⟩ }

/-- Thirteen profiles, one more than the fallback ranking keeps. -/
def widePool : List Profile :=
  (List.range 13).map (fun i => sampleProfile ("p" ++ toString i) none)

/-- A world where the vector tier resolves `widePool` and the reranker throws. -/
def wideRerankDownWorld : World :=
  { rerankDownWorld with profilesIn := fun _ => ⟨some widePool, none⟩ }

/-- A pool of twelve profiles. -/
def twelvePool : List Profile :=
  (List.range 12).map (fun i => sampleProfile ("p" ++ toString i) none)

/-- The example of spec §8: the vector tier resolves twelve profiles and the
reranker scores the first nine documents with 0.5 and the last three with
0.001. -/
def exampleWorld : World :=
  { sampleWorld with
    profilesIn := fun _ => ⟨some twelvePool, none⟩
    compressDocuments := fun docs _ =>
      .ok (docs.enum.map (fun p => ⟨⟨p.2.metadata.id, if p.1 < 9 then 1 / 2 else 1 / 1000⟩⟩)) }

/-- The sample world with a vector store that throws and a full scan that
errors. -/
def scanErrorWorld : World :=
  { sampleWorld with
    similaritySearch := fun _ _ => .error ⟨"index unavailable"⟩
    applicantsLimit := fun _ => ⟨none, some ⟨"connection refused"⟩⟩ }

/-- The sample world with a vector store and a reranker that both throw and a
full scan that finds thirteen profiles. -/
def degradedWorld : World :=
  { sampleWorld with
    similaritySearch := fun _ _ => .error ⟨"index unavailable"⟩
    applicantsLimit := fun _ => ⟨some widePool, none⟩
    compressDocuments := fun _ _ => .error ⟨"rerank unavailable"⟩ }

/-- The sample world with a job posting stored under the id `j1`. -/
def jobWorld : World :=
  { sampleWorld with
    jobSingle := fun jid =>
      if jid = "j1" then
        some { title := "Backend Engineer", description := "Build services"
               required_skills := some ["Go", "SQL"] }
      else none }

/-- A history of five turns. -/
def longHistory : List Turn :=
  [⟨"user", "one"⟩, ⟨"assistant", "two"⟩, ⟨"user", "three"⟩, ⟨"assistant", "four"⟩,
    ⟨"user", "five"⟩]

/-- A request scoped to the job `j1`, with the five-turn history. -/
def jobRequest : Request :=
  { query := some "go developer", jobId := some "j1", conversationHistory := longHistory }

/-! ## The query composer as the specification words it (§4.1) -/

/-- The last `min 3 |h|` turns of a history, in their original order. -/
def lastTurns (h : List Turn) : List Turn :=
  (h.reverse.take (min 3 h.length)).reverse

/-- The composed query of a request without job context, in the words of the
specification: the raw query when the history is empty, and otherwise the
header, the last turns rendered as `role: content` and joined by newlines, and
the raw query after `Current request: `. -/
def specComposeHistory (q : String) (h : List Turn) : String :=
  if h = [] then q
  else
    "Previous context:\n" ++
      "\n".intercalate ((lastTurns h).map (fun t => t.role ++ ": " ++ t.content)) ++
      "\n\nCurrent request: " ++ q

/-! ## Salary sorting key (`src/app/dashboard/job-search/page.js`, lines 184-194) -/

/-- The matches of the regular expression `\d+` with the `g` flag: the maximal
runs of ASCII digits of the text, in order.  `cur` holds the digits of the run
being read, last digit first. -/
def digitRuns : List Char → List Char → List (List Char)
  | [], cur => if cur = [] then [] else [cur.reverse]
  | c :: cs, cur =>
    if c.isDigit then digitRuns cs (c :: cur)
    else if cur = [] then digitRuns cs []
    else cur.reverse :: digitRuns cs []

/-- A JavaScript number other than `NaN`: a finite double, embedded as a
rational, or `Infinity`. -/
inductive JsNumber where
  | finite (value : ℚ)
  | infinity
  deriving DecidableEq, Repr

/-- The JavaScript `parseInt` on a text made of ASCII digits only: its decimal
value as the nearest double, and `Infinity` when the value is beyond the
largest double, that is when rounding to 53 bits reaches `2 ^ 1024`. -/
def parseIntDigits (digits : List Char) : JsNumber :=
  let value := roundBinary64 ((digits.foldl (fun n c => 10 * n + (c.toNat - 48)) 0 : Nat) : ℚ)
  if 2 ^ 1024 ≤ value then JsNumber.infinity else JsNumber.finite value

/-- Lines 184-194: `extractSalaryNumber`.  `none` is a `null` or `undefined`
salary; `match` gives `null` when the text has no digit. -/
def extractSalaryNumber (salary : Option String) : JsNumber :=
  match salary with
  | none => JsNumber.finite 0
  | some s =>
    if s = "" then JsNumber.finite 0
    else
      match digitRuns s.data [] with
      | [] => JsNumber.finite 0
      | first :: _ => parseIntDigits (first.filter (fun c => c ≠ ','))

/-! ## Further sample data -/

/-- The sample world without a configured key and without a session. -/
def noKeyNoSessionWorld : World :=
  { sampleWorld with COHERE_API_KEY := none, user := none }

/-- The sample world without a session. -/
def anonymousWorld : World :=
  { sampleWorld with user := none }

/-- The sample request, naming a job that the sample world does not have. -/
def missingJobRequest : Request :=
  { query := some "go developer", jobId := some "gone", conversationHistory := longHistory }

/-- The sample request with the five-turn history and no job. -/
def historyRequest : Request :=
  { query := some "go developer", jobId := none, conversationHistory := longHistory }

/-- The resumes of candidate `a` with their upload times, newest first: the
newest has no feedback yet, the older one has a summary. -/
def staleRows : List (Nat × Resume) :=
  [(2, ⟨"a", none⟩), (1, ⟨"a", some ⟨some "Go, 8 years"⟩⟩)]

/-- The sample world where the resume fetch returns `staleRows`. -/
def staleResumeWorld : World :=
  { sampleWorld with resumesIn := fun _ => some (staleRows.map Prod.snd) }

/-- The resumes of candidate `a` with their upload times, newest first, both
with a summary. -/
def freshRows : List (Nat × Resume) :=
  [(2, ⟨"a", some ⟨some "Go, 8 years"⟩⟩), (1, ⟨"a", some ⟨some "older"⟩⟩)]

/-! ## Enrichment and documents as the specification words them (§4.3, §4.4) -/

/-- The summary value of a resume, in the words of the specification: the
feedback summary when it is present and non-empty, else the empty string. -/
def specSummaryOf (r : Resume) : String :=
  match r.feedback with
  | none => ""
  | some f =>
    match f.summary with
    | none => ""
    | some s => s

/-- The entry of user `u` in the summary map, in the words of the
specification: that of the first resume of the list that belongs to `u`. -/
def specSummaryEntry (resumes : List Resume) (u : String) : Option String :=
  match resumes.filter (fun r => r.user_id = u) with
  | [] => none
  | first :: _ => some (specSummaryOf first)

/-- A field value with a placeholder for a missing (`null` or empty) one. -/
def specValueOr (value : Option String) (placeholder : String) : String :=
  match value with
  | none => placeholder
  | some s => if s = "" then placeholder else s

/-- The labelled fields of a candidate's composite document, in order, with
the placeholders of the specification; `entry` is the candidate's summary-map
entry. -/
def specDocumentFields (c : Profile) (entry : Option String) : List (String × String) :=
  [("Name", interpolate c.full_name),
    ("Location", specValueOr c.location "N/A"),
    ("Availability", specValueOr c.availability_status "N/A"),
    ("Title", specValueOr c.job_title "N/A"),
    ("Experience Level", specValueOr c.experience_level "N/A"),
    ("Bio", specValueOr c.bio ""),
    ("Skills", match c.skills with
      | none => "N/A"
      | some skills => ", ".intercalate skills),
    ("Resume Summary", specValueOr entry "No resume summary available.")]

/-- The text of a composite document: one line `label: value` per field, in
order, laid out as the template literal of lines 139-148 and trimmed. -/
def specDocumentText (c : Profile) (entry : Option String) : String :=
  jsTrim (String.join ((specDocumentFields c entry).map
    (fun f => "\n        " ++ f.1 ++ ": " ++ f.2)) ++ "\n      ")

/-! ## Lemmas on the structure of a run -/

theorem POST_of_composes {w : World} {req : Request} {query enhancedQuery : String}
    (h : Composes w req query enhancedQuery) :
    POST w req =
      ((retrieveAndRank w req.conversationHistory query enhancedQuery).1,
        Call.getUser ::
          ((addJobContext w req.jobId (composeHistory query req.conversationHistory)).2 ++
            (retrieveAndRank w req.conversationHistory query enhancedQuery).2)) := by
  obtain ⟨hq, hv, hk, hu, hj⟩ := h
  obtain ⟨u, hu⟩ := Option.ne_none_iff_exists'.mp hu
  unfold POST
  rw [hq]
  simp only [hv, hk, if_false, hu]
  unfold runPipeline
  generalize addJobContext w req.jobId (composeHistory query req.conversationHistory) = r at hj ⊢
  obtain ⟨r1, r2⟩ := r
  simp only at hj
  subst hj
  rfl

theorem POST_of_reaches {w : World} {req : Request} {query enhancedQuery : String}
    {candidates : List Profile} {stage1Method : String}
    (h : ReachesRanking w req query enhancedQuery candidates stage1Method) :
    (POST w req).1 =
      rankedResponse req.conversationHistory query candidates stage1Method
        (stage2 w candidates (resumeMapOf w candidates) enhancedQuery).1.1
        (stage2 w candidates (resumeMapOf w candidates) enhancedQuery).1.2 := by
  rw [POST_of_composes h.1]
  have h2 := h.2
  unfold retrieveAndRank
  generalize retrieve w enhancedQuery = r at h2 ⊢
  obtain ⟨r1, r2⟩ := r
  simp only at h2
  subst h2
  rfl

theorem mapM_except_ok_iff {ε α β : Type} (f : α → Except ε β) (xs : List α) (ys : List β) :
    xs.mapM f = .ok ys ↔ List.Forall₂ (fun x y => f x = .ok y) xs ys := by
  induction xs generalizing ys with
  | nil =>
    simp only [List.mapM_nil, List.forall₂_nil_left_iff]
    constructor
    · intro h
      cases h
      rfl
    · intro h
      subst h
      rfl
  | cons x xs ih =>
    rw [List.mapM_cons]
    cases hx : f x with
    | error e =>
      constructor
      · intro h
        cases h
      · intro h
        cases h with
        | cons h1 _ => rw [hx] at h1; cases h1
    | ok y =>
      cases hxs : xs.mapM f with
      | error e =>
        constructor
        · intro h
          cases h
        · intro h
          cases h with
          | cons h1 h2 =>
            rw [← ih] at h2
            rw [hxs] at h2
            cases h2
      | ok ys' =>
        constructor
        · intro h
          cases h
          refine List.Forall₂.cons hx ?_
          exact (ih ys').mp hxs
        · intro h
          cases h with
          | cons h1 h2 =>
            rw [hx] at h1
            cases h1
            have := (ih _).mpr h2
            rw [hxs] at this
            cases this
            rfl

theorem rankResult_ok {candidates : List Profile} {resumeMap : ResumeMap} {result : RerankedDoc}
    {x : RankedCandidate} (h : rankResult candidates resumeMap result = .ok x) :
    x.id = result.metadata.id ∧ x.relevanceScore = result.metadata.relevanceScore ∧
      x.profile ∈ candidates ∧ x.id = x.profile.id := by
  unfold rankResult at h
  cases hf : candidates.find? (fun c => c.id == result.metadata.id) with
  | none => rw [hf] at h; cases h
  | some c =>
    rw [hf] at h
    simp only [Except.ok.injEq] at h
    subst h
    have hp := List.find?_some hf
    have hm := List.mem_of_find?_eq_some hf
    simp only [beq_iff_eq] at hp
    exact ⟨hp, rfl, hm, rfl⟩

theorem rankResult_isOk_iff (candidates : List Profile) (resumeMap : ResumeMap)
    (result : RerankedDoc) :
    (∃ x, rankResult candidates resumeMap result = .ok x) ↔
      ∃ c ∈ candidates, c.id = result.metadata.id := by
  constructor
  · rintro ⟨x, hx⟩
    obtain ⟨h1, _, h3, h4⟩ := rankResult_ok hx
    exact ⟨x.profile, h3, by rw [← h4, h1]⟩
  · rintro ⟨c, hc, hid⟩
    unfold rankResult
    cases hf : candidates.find? (fun c => c.id == result.metadata.id) with
    | none =>
      rw [List.find?_eq_none] at hf
      have := hf c hc
      simp [hid] at this
    | some c' => exact ⟨_, rfl⟩

theorem forall₂_rankResult {candidates : List Profile} {resumeMap : ResumeMap}
    {xs : List RerankedDoc} {ys : List RankedCandidate}
    (h : List.Forall₂ (fun r y => rankResult candidates resumeMap r = .ok y) xs ys) :
    ys.map (fun y => (y.id, y.relevanceScore)) =
        xs.map (fun r => (r.metadata.id, r.metadata.relevanceScore)) ∧
      ∀ y ∈ ys, y.profile ∈ candidates ∧ y.id = y.profile.id := by
  induction h with
  | nil => simp
  | cons h1 _ ih =>
    obtain ⟨a, b, c, d⟩ := rankResult_ok h1
    refine ⟨?_, ?_⟩
    · simp only [List.map_cons, ih.1, a, b]
    · intro y hy
      rcases List.mem_cons.mp hy with rfl | hy
      · exact ⟨c, d⟩
      · exact ih.2 y hy

theorem mapM_rankResult_isOk_iff (candidates : List Profile) (resumeMap : ResumeMap)
    (xs : List RerankedDoc) :
    (∃ ys, xs.mapM (rankResult candidates resumeMap) = .ok ys) ↔
      ∀ r ∈ xs, ∃ c ∈ candidates, c.id = r.metadata.id := by
  induction xs with
  | nil => exact ⟨fun _ => by simp, fun _ => ⟨[], rfl⟩⟩
  | cons x xs ih =>
    constructor
    · rintro ⟨ys, hys⟩
      rw [mapM_except_ok_iff] at hys
      cases hys with
      | cons h1 h2 =>
        intro r hr
        rcases List.mem_cons.mp hr with rfl | hr
        · exact (rankResult_isOk_iff _ _ _).mp ⟨_, h1⟩
        · exact ih.mp ⟨_, (mapM_except_ok_iff _ _ _).mpr h2⟩ r hr
    · intro h
      obtain ⟨y, hy⟩ := (rankResult_isOk_iff candidates resumeMap x).mpr (h x (List.mem_cons_self _ _))
      obtain ⟨ys, hys⟩ := ih.mpr (fun r hr => h r (List.mem_cons_of_mem _ hr))
      refine ⟨y :: ys, ?_⟩
      rw [mapM_except_ok_iff] at hys ⊢
      exact List.Forall₂.cons hy hys

theorem tryRerank_of_ok {w : World} {candidates : List Profile} {resumeMap : ResumeMap}
    {enhancedQuery : String} {results : List RerankedDoc}
    (h : w.compressDocuments (documentsToRerank candidates resumeMap) enhancedQuery = .ok results) :
    tryRerank w candidates resumeMap enhancedQuery =
      (filterResults results).mapM (rankResult candidates resumeMap) := by
  unfold tryRerank
  rw [h]

theorem tryRerank_of_error {w : World} {candidates : List Profile} {resumeMap : ResumeMap}
    {enhancedQuery : String} {e : JsError}
    (h : w.compressDocuments (documentsToRerank candidates resumeMap) enhancedQuery = .error e) :
    tryRerank w candidates resumeMap enhancedQuery = .error e := by
  unfold tryRerank
  rw [h]

theorem stage2_of_ok {w : World} {candidates : List Profile} {resumeMap : ResumeMap}
    {enhancedQuery : String} {ranked : List RankedCandidate}
    (h : tryRerank w candidates resumeMap enhancedQuery = .ok ranked) :
    (stage2 w candidates resumeMap enhancedQuery).1 = (ranked, "rerank") := by
  unfold stage2
  rw [h]

theorem stage2_of_error {w : World} {candidates : List Profile} {resumeMap : ResumeMap}
    {enhancedQuery : String} {e : JsError}
    (h : tryRerank w candidates resumeMap enhancedQuery = .error e) :
    (stage2 w candidates resumeMap enhancedQuery).1 =
      (fallbackRanking candidates resumeMap, "fallback_no_rerank") := by
  unfold stage2
  rw [h]

theorem stage2_method_rerank_iff (w : World) (candidates : List Profile) (resumeMap : ResumeMap)
    (enhancedQuery : String) :
    (stage2 w candidates resumeMap enhancedQuery).1.2 = "rerank" ↔
      ∃ ranked, tryRerank w candidates resumeMap enhancedQuery = .ok ranked := by
  cases h : tryRerank w candidates resumeMap enhancedQuery with
  | ok ranked =>
    rw [stage2_of_ok h]
    exact ⟨fun _ => ⟨ranked, rfl⟩, fun _ => rfl⟩
  | error e =>
    rw [stage2_of_error h]
    constructor
    · intro h'
      have h'' : ("fallback_no_rerank" : String) = "rerank" := h'
      exact absurd h'' (by decide)
    · rintro ⟨_, h'⟩
      cases h'

theorem candidates_of_reaches {w : World} {req : Request} {query enhancedQuery : String}
    {candidates : List Profile} {stage1Method : String}
    (h : ReachesRanking w req query enhancedQuery candidates stage1Method) :
    (POST w req).1.candidates =
      some (stage2 w candidates (resumeMapOf w candidates) enhancedQuery).1.1 := by
  rw [POST_of_reaches h]
  rfl

/-- The literal `0.005` denotes the double `5764607523034235 / 2 ^ 60`, the
binary64 number nearest to `1 / 200`. -/
theorem scoreThreshold_eq : scoreThreshold = 5764607523034235 / 2 ^ 60 := by
  decide!

/-- The dummy scores of the fallback ranking, as fractions: the doubles that
print as 0.5, 0.49, 0.48, ..., 0.42, 0.41000000000000003, 0.4, 0.39. -/
theorem fallbackScore_table :
    (List.range 12).map fallbackScore =
      [1 / 2, 2206763817411543 / 2 ^ 52, 1080863910568919 / 2 ^ 51,
        2116691824864133 / 2 ^ 52, 8286623314361713 / 2 ^ 54, 8106479329266893 / 2 ^ 54,
        7926335344172073 / 2 ^ 54, 7746191359077253 / 2 ^ 54, 7566047373982433 / 2 ^ 54,
        3692951694443807 / 2 ^ 53, 3602879701896397 / 2 ^ 53, 3512807709348987 / 2 ^ 53] := by
  decide!

theorem mem_filterResults {results : List RerankedDoc} {r : RerankedDoc} :
    r ∈ filterResults results ↔ r ∈ results ∧ scoreThreshold ≤ r.metadata.relevanceScore := by
  unfold filterResults
  simp [List.mem_filter]

/-! ## Stage 2 claims -/

theorem submitted_ids_in_pool {candidates : List Profile} {resumeMap : ResumeMap}
    {results : List RerankedDoc}
    (h : ∀ r ∈ results, ∃ d ∈ documentsToRerank candidates resumeMap,
      d.metadata.id = r.metadata.id) :
    ∀ r ∈ results, ∃ c ∈ candidates, c.id = r.metadata.id := by
  intro r hr
  obtain ⟨d, hd, hid⟩ := h r hr
  unfold documentsToRerank at hd
  obtain ⟨c, hc, rfl⟩ := List.mem_map.mp hd
  exact ⟨c, hc, hid⟩

/-- C1 (rerank threshold filter).  On the rerank path, when the results the
rerank call returns refer to pairwise distinct candidates of the pool, a
candidate whose result scores below 0.005 has no entry in the response's
`candidates` list and a candidate whose result scores at least 0.005, exactly
0.005 included, has exactly one.  Scores are doubles, and 0.005 is the double
`5764607523034235 / 2 ^ 60`. -/
theorem rerank_threshold_filter (w : World) (req : Request) (query enhancedQuery : String)
    (candidates : List Profile) (stage1Method : String) (results : List RerankedDoc)
    (hreach : ReachesRanking w req query enhancedQuery candidates stage1Method)
    (hcall : w.compressDocuments (documentsToRerank candidates (resumeMapOf w candidates))
      enhancedQuery = .ok results)
    (hpool : ∀ r ∈ results, ∃ c ∈ candidates, c.id = r.metadata.id)
    (hdistinct : (results.map (fun r => r.metadata.id)).Nodup) :
    ∃ ranked, (POST w req).1.candidates = some ranked ∧
      ∀ r ∈ results,
        (r.metadata.relevanceScore < 5764607523034235 / 2 ^ 60 →
          (ranked.map (fun x => x.id)).count r.metadata.id = 0) ∧
        (5764607523034235 / 2 ^ 60 ≤ r.metadata.relevanceScore →
          (ranked.map (fun x => x.id)).count r.metadata.id = 1) := by
  have hthr : scoreThreshold = 5764607523034235 / 2 ^ 60 := by decide!
  obtain ⟨ranked, hranked⟩ :=
    (mapM_rankResult_isOk_iff candidates (resumeMapOf w candidates) (filterResults results)).mpr
      (fun r hr => hpool r (mem_filterResults.mp hr).1)
  have htry := (tryRerank_of_ok hcall).trans hranked
  refine ⟨ranked, ?_, ?_⟩
  · rw [candidates_of_reaches hreach, stage2_of_ok htry]
  · have hmap := (forall₂_rankResult ((mapM_except_ok_iff _ _ _).mp hranked)).1
    have hids : ranked.map (fun x => x.id) =
        (filterResults results).map (fun r => r.metadata.id) := by
      have := congrArg (List.map Prod.fst) hmap
      simpa [List.map_map, Function.comp_def] using this
    have hsub : List.Sublist ((filterResults results).map (fun r => r.metadata.id))
        (results.map (fun r => r.metadata.id)) :=
      List.Sublist.map _ (List.filter_sublist _)
    have hnd : ((filterResults results).map (fun r => r.metadata.id)).Nodup :=
      hdistinct.sublist hsub
    intro r hr
    rw [hids, ← hthr]
    constructor
    · intro hlt
      rw [List.count_eq_zero]
      intro hmem
      obtain ⟨r', hr', hid⟩ := List.mem_map.mp hmem
      have hr'' := mem_filterResults.mp hr'
      have : r' = r := List.inj_on_of_nodup_map hdistinct hr''.1 hr hid
      subst this
      exact absurd hlt (not_lt.mpr hr''.2)
    · intro hge
      apply List.count_eq_one_of_mem hnd
      exact List.mem_map.mpr ⟨r, mem_filterResults.mpr ⟨hr, hge⟩, rfl⟩

/-- Witness of C1 at the boundary: `c` scores 0.9 and `a` scores exactly the
double 0.005, and both are listed once; `b` scores the double just below 0.005
and is not listed. -/
theorem rerank_threshold_filter_witness :
    ((POST thresholdWorld sampleRequest).1.candidates.map (fun l => l.map (fun x => x.id)) =
        some ["c", "a"]) ∧
    ∃ ranked, (POST thresholdWorld sampleRequest).1.candidates = some ranked ∧
      ∀ r ∈ [(⟨⟨"c", 9 / 10⟩⟩ : RerankedDoc), ⟨⟨"a", 5764607523034235 / 2 ^ 60⟩⟩,
          ⟨⟨"b", 5764607523034234 / 2 ^ 60⟩⟩],
        (r.metadata.relevanceScore < 5764607523034235 / 2 ^ 60 →
          (ranked.map (fun x => x.id)).count r.metadata.id = 0) ∧
        (5764607523034235 / 2 ^ 60 ≤ r.metadata.relevanceScore →
          (ranked.map (fun x => x.id)).count r.metadata.id = 1) :=
  ⟨by decide!,
    rerank_threshold_filter thresholdWorld sampleRequest "go developer" "go developer"
      triplePool "vector_search"
      [⟨⟨"c", 9 / 10⟩⟩, ⟨⟨"a", 5764607523034235 / 2 ^ 60⟩⟩, ⟨⟨"b", 5764607523034234 / 2 ^ 60⟩⟩]
      (by unfold ReachesRanking Composes; decide) rfl (by decide) (by decide)⟩

/-- C2 (rerank order and score pass-through).  On the rerank path the
`candidates` list, read as (id, relevanceScore) pairs, is the list of the
reranker's results with score at least 0.005 (the double
`5764607523034235 / 2 ^ 60`), in the reranker's order: a sub-sequence of the
results, not re-sorted, with each score and each id passed through. -/
theorem rerank_order_and_scores (w : World) (req : Request) (query enhancedQuery : String)
    (candidates : List Profile) (stage1Method : String) (results : List RerankedDoc)
    (hreach : ReachesRanking w req query enhancedQuery candidates stage1Method)
    (hcall : w.compressDocuments (documentsToRerank candidates (resumeMapOf w candidates))
      enhancedQuery = .ok results)
    (hpath : (stage2 w candidates (resumeMapOf w candidates) enhancedQuery).1.2 = "rerank") :
    ∃ ranked, (POST w req).1.candidates = some ranked ∧
      ranked.map (fun x => (x.id, x.relevanceScore)) =
        (results.filter
          (fun r => decide (5764607523034235 / 2 ^ 60 ≤ r.metadata.relevanceScore))).map
          (fun r => (r.metadata.id, r.metadata.relevanceScore)) ∧
      List.Sublist (ranked.map (fun x => (x.id, x.relevanceScore)))
        (results.map (fun r => (r.metadata.id, r.metadata.relevanceScore))) := by
  have hthr : scoreThreshold = 5764607523034235 / 2 ^ 60 := by decide!
  obtain ⟨ranked, htry⟩ := (stage2_method_rerank_iff _ _ _ _).mp hpath
  have hranked := (tryRerank_of_ok hcall).symm.trans htry
  have hmap := (forall₂_rankResult ((mapM_except_ok_iff _ _ _).mp hranked)).1
  unfold filterResults at hmap
  rw [hthr] at hmap
  refine ⟨ranked, ?_, hmap, ?_⟩
  · rw [candidates_of_reaches hreach, stage2_of_ok htry]
  · rw [hmap]
    exact List.Sublist.map _ (List.filter_sublist _)

/-- Witness of C2: the reranker returns `c` (0.3), `b` (0.001), `a` (0.9); the
list is `c` then `a`, in the reranker's order, which is neither the pool's order
nor descending by score, with the scores 0.3 and 0.9. -/
theorem rerank_order_and_scores_witness :
    ((POST unsortedRerankWorld sampleRequest).1.candidates.map
        (fun l => l.map (fun x => (x.id, x.relevanceScore))) =
        some [("c", 3 / 10), ("a", 9 / 10)]) ∧
    ∃ ranked, (POST unsortedRerankWorld sampleRequest).1.candidates = some ranked ∧
      ranked.map (fun x => (x.id, x.relevanceScore)) =
        ([(⟨⟨"c", 3 / 10⟩⟩ : RerankedDoc), ⟨⟨"b", 1 / 1000⟩⟩, ⟨⟨"a", 9 / 10⟩⟩].filter
          (fun r => decide (5764607523034235 / 2 ^ 60 ≤ r.metadata.relevanceScore))).map
          (fun r => (r.metadata.id, r.metadata.relevanceScore)) ∧
      List.Sublist (ranked.map (fun x => (x.id, x.relevanceScore)))
        ([(⟨⟨"c", 3 / 10⟩⟩ : RerankedDoc), ⟨⟨"b", 1 / 1000⟩⟩, ⟨⟨"a", 9 / 10⟩⟩].map
          (fun r => (r.metadata.id, r.metadata.relevanceScore))) :=
  ⟨by decide!,
    rerank_order_and_scores unsortedRerankWorld sampleRequest "go developer" "go developer"
      triplePool "vector_search" [⟨⟨"c", 3 / 10⟩⟩, ⟨⟨"b", 1 / 1000⟩⟩, ⟨⟨"a", 9 / 10⟩⟩]
      (by unfold ReachesRanking Composes; decide) rfl (by decide!)⟩

/-- C3 (the fallback is triggered only if the rerank call itself fails).
`CohereRerank.compressDocuments` hands back documents it was given, each with a
score attached; so every document it returns carries the id of a submitted
document.  Under that contract the stage-2 method is `fallback_no_rerank` if
and only if the call throws; and whenever the call returns, whatever the
results (none, all below 0.005, any order), the stage-2 method is `rerank` and
the `candidates` list is built from the results: the ids and scores of those
scoring at least 0.005, in order, each with its profile from the pool. -/
theorem fallback_only_if_rerank_call_fails (w : World) (req : Request)
    (query enhancedQuery : String) (candidates : List Profile) (stage1Method : String)
    (hreach : ReachesRanking w req query enhancedQuery candidates stage1Method)
    (hsubmitted : ∀ results,
      w.compressDocuments (documentsToRerank candidates (resumeMapOf w candidates))
        enhancedQuery = .ok results →
      ∀ r ∈ results, ∃ d ∈ documentsToRerank candidates (resumeMapOf w candidates),
        d.metadata.id = r.metadata.id) :
    ((stage2 w candidates (resumeMapOf w candidates) enhancedQuery).1.2 = "fallback_no_rerank" ↔
        ∃ e, w.compressDocuments (documentsToRerank candidates (resumeMapOf w candidates))
          enhancedQuery = .error e) ∧
      ∀ results,
        w.compressDocuments (documentsToRerank candidates (resumeMapOf w candidates))
          enhancedQuery = .ok results →
        (stage2 w candidates (resumeMapOf w candidates) enhancedQuery).1.2 = "rerank" ∧
        ∃ ranked, (POST w req).1.candidates = some ranked ∧
          (POST w req).1.pipeline = some
            { stage1 := stage1Method ++ " (" ++ toString candidates.length ++ " candidates)"
              stage2 := "rerank (" ++ toString ranked.length ++ " ranked results)" } ∧
          ranked.map (fun x => (x.id, x.relevanceScore)) =
            (results.filter
              (fun r => decide (5764607523034235 / 2 ^ 60 ≤ r.metadata.relevanceScore))).map
              (fun r => (r.metadata.id, r.metadata.relevanceScore)) ∧
          ∀ x ∈ ranked, x.profile ∈ candidates ∧ x.id = x.profile.id := by
  have hthr : scoreThreshold = 5764607523034235 / 2 ^ 60 := by decide!
  have hok : ∀ results,
      w.compressDocuments (documentsToRerank candidates (resumeMapOf w candidates))
        enhancedQuery = .ok results →
      ∃ ranked, tryRerank w candidates (resumeMapOf w candidates) enhancedQuery = .ok ranked ∧
        List.Forall₂ (fun r y => rankResult candidates (resumeMapOf w candidates) r = .ok y)
          (filterResults results) ranked := by
    intro results hcall
    have hpool := submitted_ids_in_pool (hsubmitted results hcall)
    obtain ⟨ranked, hranked⟩ :=
      (mapM_rankResult_isOk_iff candidates (resumeMapOf w candidates)
        (filterResults results)).mpr (fun r hr => hpool r (mem_filterResults.mp hr).1)
    exact ⟨ranked, (tryRerank_of_ok hcall).trans hranked, (mapM_except_ok_iff _ _ _).mp hranked⟩
  constructor
  · constructor
    · intro hm
      cases hcall : w.compressDocuments (documentsToRerank candidates (resumeMapOf w candidates))
          enhancedQuery with
      | error e => exact ⟨e, rfl⟩
      | ok results =>
        obtain ⟨ranked, htry, _⟩ := hok results hcall
        rw [stage2_of_ok htry] at hm
        have hm' : ("rerank" : String) = "fallback_no_rerank" := hm
        exact absurd hm' (by decide)
    · rintro ⟨e, he⟩
      rw [stage2_of_error (tryRerank_of_error he)]
  · intro results hcall
    obtain ⟨ranked, htry, hf⟩ := hok results hcall
    have hmap := forall₂_rankResult hf
    refine ⟨by rw [stage2_of_ok htry], ranked, ?_, ?_, ?_, hmap.2⟩
    · rw [candidates_of_reaches hreach, stage2_of_ok htry]
    · rw [POST_of_reaches hreach, stage2_of_ok htry]
      rfl
    · have h1 := hmap.1
      unfold filterResults at h1
      rw [hthr] at h1
      exact h1

/-- Witness of C3: the reranker returns three of the submitted documents, of
which one scores below 0.005; the trace is `rerank (2 ranked results)`. -/
theorem fallback_only_if_rerank_call_fails_witness :
    ((POST thresholdWorld sampleRequest).1.pipeline =
        some { stage1 := "vector_search (3 candidates)"
               stage2 := "rerank (2 ranked results)" }) ∧
    (((stage2 thresholdWorld triplePool (resumeMapOf thresholdWorld triplePool)
          "go developer").1.2 = "fallback_no_rerank" ↔
        ∃ e, thresholdWorld.compressDocuments
          (documentsToRerank triplePool (resumeMapOf thresholdWorld triplePool))
          "go developer" = .error e) ∧
      ∀ results,
        thresholdWorld.compressDocuments
          (documentsToRerank triplePool (resumeMapOf thresholdWorld triplePool))
          "go developer" = .ok results →
        (stage2 thresholdWorld triplePool (resumeMapOf thresholdWorld triplePool)
          "go developer").1.2 = "rerank" ∧
        ∃ ranked, (POST thresholdWorld sampleRequest).1.candidates = some ranked ∧
          (POST thresholdWorld sampleRequest).1.pipeline = some
            { stage1 := "vector_search" ++ " (" ++ toString triplePool.length ++ " candidates)"
              stage2 := "rerank (" ++ toString ranked.length ++ " ranked results)" } ∧
          ranked.map (fun x => (x.id, x.relevanceScore)) =
            (results.filter
              (fun r => decide (5764607523034235 / 2 ^ 60 ≤ r.metadata.relevanceScore))).map
              (fun r => (r.metadata.id, r.metadata.relevanceScore)) ∧
          ∀ x ∈ ranked, x.profile ∈ triplePool ∧ x.id = x.profile.id) :=
  ⟨by decide!,
    fallback_only_if_rerank_call_fails thresholdWorld sampleRequest "go developer"
      "go developer" triplePool "vector_search" (by unfold ReachesRanking Composes; decide)
      (by
        intro results h
        have h' : results = [⟨⟨"c", 9 / 10⟩⟩, ⟨⟨"a", 5764607523034235 / 2 ^ 60⟩⟩,
            ⟨⟨"b", 5764607523034234 / 2 ^ 60⟩⟩] := by
          cases h
          rfl
        rw [h']
        decide!)⟩

theorem stage2_of_call_error {w : World} {candidates : List Profile} {resumeMap : ResumeMap}
    {enhancedQuery : String} {e : JsError}
    (h : w.compressDocuments (documentsToRerank candidates resumeMap) enhancedQuery = .error e) :
    (stage2 w candidates resumeMap enhancedQuery).1 =
      (fallbackRanking candidates resumeMap, "fallback_no_rerank") :=
  stage2_of_error (tryRerank_of_error h)

theorem length_fallbackRanking (candidates : List Profile) (resumeMap : ResumeMap) :
    (fallbackRanking candidates resumeMap).length = min 12 candidates.length := by
  unfold fallbackRanking
  rw [List.length_mapIdx, List.length_take]

theorem getElem_fallbackRanking (candidates : List Profile) (resumeMap : ResumeMap) (i : Nat)
    (h : i < (fallbackRanking candidates resumeMap).length) :
    ∃ hp : i < candidates.length,
      (fallbackRanking candidates resumeMap)[i] =
        { id := candidates[i].id
          profile := candidates[i]
          summary := orOpt (resumeMap.get candidates[i].id) candidates[i].bio
          skills := candidates[i].skills.getD []
          relevanceScore := fallbackScore i } := by
  have hlen := length_fallbackRanking candidates resumeMap
  have hp : i < candidates.length := by
    rw [hlen] at h
    exact lt_of_lt_of_le h (min_le_right _ _)
  refine ⟨hp, ?_⟩
  unfold fallbackRanking
  rw [List.getElem_mapIdx]
  simp only [List.getElem_take]

theorem retrieve_pool_ne_nil {w : World} {enhancedQuery : String} {candidates : List Profile}
    {stage1Method : String}
    (h : (retrieve w enhancedQuery).1 = Stage1.pool candidates stage1Method) :
    candidates ≠ [] := by
  unfold retrieve at h
  simp only at h
  split at h
  · rename_i hlen
    split at h
    · cases h
    · split at h
      · cases h
      · split at h
        · cases h
        · rename_i hne
          simp only [Stage1.pool.injEq] at h
          rw [← h.1]
          intro hnil
          exact hne (by rw [hnil]; rfl)
  · rename_i hlen
    simp only [Stage1.pool.injEq] at h
    rw [← h.1]
    intro hnil
    exact hlen (by rw [hnil]; rfl)

/-- C4 (zero matches after filtering is a success).  When the rerank call
succeeds and every returned score is below 0.005 (in particular when no result
is returned), the response has status 200, `candidates = []`, the stage-2
trace `rerank (0 ranked results)`, and the history gains the user turn and the
assistant turn `Found 0 candidates matching your criteria.`. -/
theorem zero_matches_is_success (w : World) (req : Request) (query enhancedQuery : String)
    (candidates : List Profile) (stage1Method : String) (results : List RerankedDoc)
    (hreach : ReachesRanking w req query enhancedQuery candidates stage1Method)
    (hcall : w.compressDocuments (documentsToRerank candidates (resumeMapOf w candidates))
      enhancedQuery = .ok results)
    (hlow : ∀ r ∈ results, r.metadata.relevanceScore < scoreThreshold) :
    (POST w req).1 =
      { status := 200, error := none, details := none
        candidates := some []
        conversationHistory := some (req.conversationHistory ++
          [{ role := "user", content := query },
           { role := "assistant", content := "Found 0 candidates matching your criteria." }])
        pipeline := some
          { stage1 := stage1Method ++ " (" ++ toString candidates.length ++ " candidates)"
            stage2 := "rerank (0 ranked results)" } } := by
  have hnil : filterResults results = [] := by
    unfold filterResults
    rw [List.filter_eq_nil_iff]
    intro r hr
    simp only [decide_eq_true_eq, not_le]
    exact hlow r hr
  have htry : tryRerank w candidates (resumeMapOf w candidates) enhancedQuery = .ok [] := by
    rw [tryRerank_of_ok hcall, hnil]
    rfl
  rw [POST_of_reaches hreach, stage2_of_ok htry]
  rfl

/-- Witness of C4: the reranker scores `a` with 0.001 and `b` with 0. -/
theorem zero_matches_is_success_witness :
    (POST lowScoresWorld sampleRequest).1 =
      { status := 200, error := none, details := none
        candidates := some []
        conversationHistory := some (sampleRequest.conversationHistory ++
          [{ role := "user", content := "go developer" },
           { role := "assistant", content := "Found 0 candidates matching your criteria." }])
        pipeline := some
          { stage1 := "vector_search" ++ " (" ++ toString samplePool.length ++ " candidates)"
            stage2 := "rerank (0 ranked results)" } } :=
  zero_matches_is_success lowScoresWorld sampleRequest "go developer" "go developer" samplePool
    "vector_search" [⟨⟨"a", 1 / 1000⟩⟩, ⟨⟨"b", 0⟩⟩]
    (by unfold ReachesRanking Composes; decide) rfl (by decide!)

/-- C5 (fallback selection).  When the rerank call fails, the pool has
`n ≥ 1` candidates, the `candidates` list has length `min 12 n`, and its i-th
entry is the i-th candidate of the pool (same profile, same id, same order):
the list of profiles is the first twelve of the pool, none filtered out. -/
theorem fallback_selection (w : World) (req : Request) (query enhancedQuery : String)
    (candidates : List Profile) (stage1Method : String) (e : JsError)
    (hreach : ReachesRanking w req query enhancedQuery candidates stage1Method)
    (hfail : w.compressDocuments (documentsToRerank candidates (resumeMapOf w candidates))
      enhancedQuery = .error e) :
    1 ≤ candidates.length ∧
    ∃ ranked, (POST w req).1.candidates = some ranked ∧
      ranked.length = min 12 candidates.length ∧
      (∀ i (h : i < ranked.length), ∃ hp : i < candidates.length,
        ranked[i].profile = candidates[i] ∧ ranked[i].id = candidates[i].id) ∧
      ranked.map (fun x => x.profile) = candidates.take 12 ∧
      ranked.map (fun x => x.id) = (candidates.take 12).map (fun c => c.id) := by
  have hget := getElem_fallbackRanking candidates (resumeMapOf w candidates)
  have hlen := length_fallbackRanking candidates (resumeMapOf w candidates)
  refine ⟨List.length_pos.mpr (retrieve_pool_ne_nil hreach.2), _, ?_, hlen, ?_, ?_, ?_⟩
  · rw [candidates_of_reaches hreach, stage2_of_call_error hfail]
  · intro i h
    obtain ⟨hp, heq⟩ := hget i h
    exact ⟨hp, by rw [heq], by rw [heq]⟩
  · apply List.ext_getElem
    · rw [List.length_map, hlen, List.length_take]
    · intro i h1 h2
      rw [List.length_map] at h1
      obtain ⟨hp, heq⟩ := hget i h1
      rw [List.getElem_map, heq, List.getElem_take]
  · apply List.ext_getElem
    · rw [List.length_map, List.length_map, hlen, List.length_take]
    · intro i h1 h2
      rw [List.length_map] at h1
      obtain ⟨hp, heq⟩ := hget i h1
      rw [List.getElem_map, List.getElem_map, heq, List.getElem_take]

/-- Witness of C5: a pool of thirteen, of which the first twelve are kept. -/
theorem fallback_selection_witness :
    1 ≤ widePool.length ∧
    ∃ ranked, (POST wideRerankDownWorld sampleRequest).1.candidates = some ranked ∧
      ranked.length = min 12 widePool.length ∧
      (∀ i (h : i < ranked.length), ∃ hp : i < widePool.length,
        ranked[i].profile = widePool[i] ∧ ranked[i].id = widePool[i].id) ∧
      ranked.map (fun x => x.profile) = widePool.take 12 ∧
      ranked.map (fun x => x.id) = (widePool.take 12).map (fun c => c.id) :=
  fallback_selection wideRerankDownWorld sampleRequest "go developer" "go developer" widePool
    "vector_search" ⟨"rerank unavailable"⟩ (by unfold ReachesRanking Composes; decide) rfl


theorem fallbackScore_step :
    ∀ i < 11, fallbackScore (i + 1) < fallbackScore i ∧
      1 / 100 - 1 / 10 ^ 16 < fallbackScore i - fallbackScore (i + 1) ∧
      fallbackScore i - fallbackScore (i + 1) < 1 / 100 + 1 / 10 ^ 16 := by
  decide!

theorem fallbackScore_near :
    ∀ i : Nat, i < 12 → 1 / 2 - (i : ℚ) / 100 - 1 / 10 ^ 16 < fallbackScore i ∧
      fallbackScore i < 1 / 2 - (i : ℚ) / 100 + 1 / 10 ^ 16 := by
  decide!

/-- C6 fails as stated: with a failing reranker and a pool of two, the scores
are the doubles `0.5` and `0.5 - 1 * 0.01`; the second is not `49 / 100`, and
their difference is neither `1 / 100` nor the double `0.01`, whether it is taken
exactly or by the JavaScript subtraction. -/
theorem fallback_scores_not_exact :
    ReachesRanking rerankDownWorld sampleRequest "go developer" "go developer" samplePool
        "vector_search" ∧
      rerankDownWorld.compressDocuments
          (documentsToRerank samplePool (resumeMapOf rerankDownWorld samplePool))
          "go developer" = .error ⟨"rerank unavailable"⟩ ∧
      ((POST rerankDownWorld sampleRequest).1.candidates.map
          (fun l => l.map (fun x => x.relevanceScore))) =
        some [1 / 2, 2206763817411543 / 4503599627370496] ∧
      (2206763817411543 / 4503599627370496 : ℚ) ≠ 1 / 2 - 1 / 100 ∧
      (1 / 2 - 2206763817411543 / 4503599627370496 : ℚ) ≠ 1 / 100 ∧
      (1 / 2 - 2206763817411543 / 4503599627370496 : ℚ) ≠ roundBinary64 (1 / 100) ∧
      jsSub (1 / 2) (2206763817411543 / 4503599627370496) ≠ roundBinary64 (1 / 100) := by
  refine ⟨by unfold ReachesRanking Composes; decide, rfl, by decide!, by decide!, by decide!,
    by decide!, by decide!⟩

/-- C6 (amended).  When the rerank call fails, the i-th entry (0-based) of the
`candidates` list has the relevanceScore the double-precision expression
`0.5 - (i * 0.01)` evaluates to, which is within `10⁻¹⁶` of `0.5 - 0.01 * i`;
the score sequence has length `min 12 poolSize`, is strictly decreasing, and
every consecutive pair differs by `0.01` up to an error below `10⁻¹⁶`. -/
theorem fallback_scores (w : World) (req : Request) (query enhancedQuery : String)
    (candidates : List Profile) (stage1Method : String) (e : JsError)
    (hreach : ReachesRanking w req query enhancedQuery candidates stage1Method)
    (hfail : w.compressDocuments (documentsToRerank candidates (resumeMapOf w candidates))
      enhancedQuery = .error e) :
    ∃ ranked, (POST w req).1.candidates = some ranked ∧
      ranked.length = min 12 candidates.length ∧
      (∀ i (h : i < ranked.length), ranked[i].relevanceScore = fallbackScore i ∧
        1 / 2 - (i : ℚ) / 100 - 1 / 10 ^ 16 < ranked[i].relevanceScore ∧
        ranked[i].relevanceScore < 1 / 2 - (i : ℚ) / 100 + 1 / 10 ^ 16) ∧
      (∀ i (h : i + 1 < ranked.length),
        ranked[i + 1].relevanceScore < ranked[i].relevanceScore ∧
        1 / 100 - 1 / 10 ^ 16 < ranked[i].relevanceScore - ranked[i + 1].relevanceScore ∧
        ranked[i].relevanceScore - ranked[i + 1].relevanceScore < 1 / 100 + 1 / 10 ^ 16) := by
  have hget := getElem_fallbackRanking candidates (resumeMapOf w candidates)
  have hlen := length_fallbackRanking candidates (resumeMapOf w candidates)
  have hscore : ∀ i (h : i < (fallbackRanking candidates (resumeMapOf w candidates)).length),
      (fallbackRanking candidates (resumeMapOf w candidates))[i].relevanceScore =
        fallbackScore i := by
    intro i h
    obtain ⟨_, heq⟩ := hget i h
    rw [heq]
  refine ⟨_, ?_, hlen, ?_, ?_⟩
  · rw [candidates_of_reaches hreach, stage2_of_call_error hfail]
  · intro i h
    have hi : i < 12 := by
      rw [hlen] at h
      exact lt_of_lt_of_le h (min_le_left _ _)
    rw [hscore i h]
    exact ⟨rfl, fallbackScore_near i hi⟩
  · intro i h
    have hi : i < 11 := by
      rw [hlen] at h
      have := lt_of_lt_of_le h (min_le_left _ _)
      omega
    rw [hscore (i + 1) h, hscore i (by omega)]
    exact fallbackScore_step i hi

/-- Witness of the amended C6: a pool of thirteen, twelve scores. -/
theorem fallback_scores_witness :
    ∃ ranked, (POST wideRerankDownWorld sampleRequest).1.candidates = some ranked ∧
      ranked.length = min 12 widePool.length ∧
      (∀ i (h : i < ranked.length), ranked[i].relevanceScore = fallbackScore i ∧
        1 / 2 - (i : ℚ) / 100 - 1 / 10 ^ 16 < ranked[i].relevanceScore ∧
        ranked[i].relevanceScore < 1 / 2 - (i : ℚ) / 100 + 1 / 10 ^ 16) ∧
      (∀ i (h : i + 1 < ranked.length),
        ranked[i + 1].relevanceScore < ranked[i].relevanceScore ∧
        1 / 100 - 1 / 10 ^ 16 < ranked[i].relevanceScore - ranked[i + 1].relevanceScore ∧
        ranked[i].relevanceScore - ranked[i + 1].relevanceScore < 1 / 100 + 1 / 10 ^ 16) :=
  fallback_scores wideRerankDownWorld sampleRequest "go developer" "go developer" widePool
    "vector_search" ⟨"rerank unavailable"⟩ (by unfold ReachesRanking Composes; decide) rfl


theorem retrieveAndRank_of_pool {w : World} {hist : List Turn} {query enhancedQuery : String}
    {candidates : List Profile} {stage1Method : String}
    (h : (retrieve w enhancedQuery).1 = Stage1.pool candidates stage1Method) :
    retrieveAndRank w hist query enhancedQuery =
      ((rankPool w hist query enhancedQuery candidates stage1Method).1,
        (retrieve w enhancedQuery).2 ++
          (rankPool w hist query enhancedQuery candidates stage1Method).2) := by
  unfold retrieveAndRank
  generalize retrieve w enhancedQuery = r at h ⊢
  obtain ⟨r1, r2⟩ := r
  simp only at h
  subst h
  rfl

theorem retrieveAndRank_of_empty {w : World} {hist : List Turn} {query enhancedQuery : String}
    (h : (retrieve w enhancedQuery).1 = Stage1.emptyResponse) :
    retrieveAndRank w hist query enhancedQuery =
      (emptyResultResponse hist query, (retrieve w enhancedQuery).2) := by
  unfold retrieveAndRank
  generalize retrieve w enhancedQuery = r at h ⊢
  obtain ⟨r1, r2⟩ := r
  simp only at h
  subst h
  rfl

theorem retrieveAndRank_of_thrown {w : World} {hist : List Turn} {query enhancedQuery : String}
    {e : JsError} (h : (retrieve w enhancedQuery).1 = Stage1.thrown e) :
    retrieveAndRank w hist query enhancedQuery =
      (internalError e, (retrieve w enhancedQuery).2) := by
  unfold retrieveAndRank
  generalize retrieve w enhancedQuery = r at h ⊢
  obtain ⟨r1, r2⟩ := r
  simp only at h
  subst h
  rfl

theorem addJobContext_calls (w : World) (jobId : Option String) (enhancedQuery : String) :
    ∀ c ∈ (addJobContext w jobId enhancedQuery).2, ∃ jid, c = Call.jobLookup jid := by
  intro c hc
  unfold addJobContext at hc
  split at hc
  · simp at hc
  · split at hc
    · simp at hc
    · split at hc
      · simp only [List.mem_singleton] at hc
        exact ⟨_, hc⟩
      · split at hc <;>
        · simp only [List.mem_singleton] at hc
          exact ⟨_, hc⟩

theorem vectorTier_calls (w : World) (enhancedQuery : String) :
    ∀ c ∈ (vectorTier w enhancedQuery).2,
      (∃ q k, c = Call.similaritySearch q k) ∨ ∃ ids, c = Call.bulkLookup ids := by
  intro c hc
  unfold vectorTier at hc
  split at hc
  · simp only [List.mem_singleton] at hc
    exact Or.inl ⟨_, _, hc⟩
  · split at hc
    · have : c ∈ [Call.similaritySearch enhancedQuery initialPoolSize,
          Call.bulkLookup (List.filterMap truthyId ‹List VectorResult›)] := by
        dsimp only at hc
        split at hc
        · split at hc <;> exact hc
        · exact hc
      simp only [List.mem_cons, List.mem_singleton, List.not_mem_nil, or_false] at this
      rcases this with h | h
      · exact Or.inl ⟨_, _, h⟩
      · exact Or.inr ⟨_, h⟩
    · simp only [List.mem_singleton] at hc
      exact Or.inl ⟨_, _, hc⟩

theorem vectorTier_of_success {w : World} {enhancedQuery : String}
    {vectorResults : List VectorResult} {vectorCandidates : List Profile}
    (hsearch : w.similaritySearch enhancedQuery initialPoolSize = .ok vectorResults)
    (hres : vectorResults ≠ [])
    (hdata : (w.profilesIn (vectorResults.filterMap truthyId)).data = some vectorCandidates)
    (herr : (w.profilesIn (vectorResults.filterMap truthyId)).error = none)
    (hne : vectorCandidates ≠ []) :
    vectorTier w enhancedQuery =
      ((vectorCandidates, "vector_search"),
        [Call.similaritySearch enhancedQuery initialPoolSize,
          Call.bulkLookup (vectorResults.filterMap truthyId)]) := by
  unfold vectorTier
  rw [hsearch]
  simp only
  rw [if_pos (List.length_pos.mpr hres), herr, hdata]
  simp only
  rw [if_pos (List.length_pos.mpr hne)]

theorem vectorTier_of_fails {w : World} {enhancedQuery : String}
    (h : VectorTierFails w enhancedQuery) :
    (vectorTier w enhancedQuery).1 = ([], "fallback") := by
  unfold VectorTierFails at h
  unfold vectorTier
  split
  · rfl
  · rename_i vectorResults hs
    rw [hs] at h
    simp only at h
    split
    · dsimp only
      split
      · rename_i vc herr hdata
        split
        · rename_i hlen
          rcases h with h | h | h | h
          · subst h
            simp at ‹0 < ([] : List VectorResult).length›
          · exact absurd herr h
          · rw [hdata] at h
            cases h
          · rw [hdata] at h
            simp only [Option.some.injEq] at h
            subst h
            simp at hlen
        · rfl
      · rfl
    · rfl


theorem retrieve_of_vector {w : World} {enhancedQuery : String} {candidates : List Profile}
    {stage1Method : String} {calls : List Call}
    (h : vectorTier w enhancedQuery = ((candidates, stage1Method), calls))
    (hne : candidates ≠ []) :
    retrieve w enhancedQuery = (Stage1.pool candidates stage1Method, calls) := by
  unfold retrieve
  rw [h]
  simp only
  rw [if_neg]
  intro hlen
  exact hne (List.length_eq_zero.mp hlen)

theorem retrieve_of_fails {w : World} {enhancedQuery : String}
    (h : VectorTierFails w enhancedQuery) :
    retrieve w enhancedQuery =
      (match (w.applicantsLimit initialPoolSize).error with
        | some fetchError =>
          Stage1.thrown ⟨"Failed to fetch candidates: " ++ fetchError.message⟩
        | none =>
          match (w.applicantsLimit initialPoolSize).data with
          | none => Stage1.emptyResponse
          | some allApplicants =>
            if allApplicants.length = 0 then Stage1.emptyResponse
            else Stage1.pool allApplicants "full_scan",
        (vectorTier w enhancedQuery).2 ++ [Call.fullScan initialPoolSize]) := by
  have hv := vectorTier_of_fails h
  unfold retrieve
  simp only [hv, List.length_nil, if_true]
  split
  · rfl
  · split
    · rfl
    · split <;> rfl

theorem stage2_calls (w : World) (candidates : List Profile) (resumeMap : ResumeMap)
    (enhancedQuery : String) :
    (stage2 w candidates resumeMap enhancedQuery).2 =
      [Call.rerank (documentsToRerank candidates resumeMap) enhancedQuery] := by
  unfold stage2
  split <;> rfl

theorem POST_calls_of_reaches {w : World} {req : Request} {query enhancedQuery : String}
    {candidates : List Profile} {stage1Method : String}
    (h : ReachesRanking w req query enhancedQuery candidates stage1Method) :
    (POST w req).2 =
      Call.getUser ::
        ((addJobContext w req.jobId (composeHistory query req.conversationHistory)).2 ++
          ((retrieve w enhancedQuery).2 ++
            [Call.resumeFetch (candidates.map (fun c => c.id)),
              Call.rerank (documentsToRerank candidates (resumeMapOf w candidates))
                enhancedQuery])) := by
  rw [POST_of_composes h.1, retrieveAndRank_of_pool h.2]
  simp only [rankPool, stage2_calls]
  rfl

/-! ## Stage 1 claims -/

/-- C7 (tier exclusivity).  When the vector similarity search returns at least
one result and the bulk profile lookup resolves at least one profile without
error, the pool is exactly the resolved profiles, the stage-1 method is
`vector_search`, and no full-scan read is among the calls of the run. -/
theorem vector_tier_excludes_full_scan (w : World) (req : Request)
    (query enhancedQuery : String) (vectorResults : List VectorResult)
    (vectorCandidates : List Profile)
    (hcomp : Composes w req query enhancedQuery)
    (hsearch : w.similaritySearch enhancedQuery initialPoolSize = .ok vectorResults)
    (hres : 1 ≤ vectorResults.length)
    (hdata : (w.profilesIn (vectorResults.filterMap truthyId)).data = some vectorCandidates)
    (herr : (w.profilesIn (vectorResults.filterMap truthyId)).error = none)
    (hne : 1 ≤ vectorCandidates.length) :
    (retrieve w enhancedQuery).1 = Stage1.pool vectorCandidates "vector_search" ∧
      (∃ p, (POST w req).1.pipeline = some p ∧
        p.stage1 = "vector_search (" ++ toString vectorCandidates.length ++ " candidates)") ∧
      ∀ limit, Call.fullScan limit ∉ (POST w req).2 := by
  have hv := vectorTier_of_success hsearch (List.length_pos.mp hres) hdata herr
    (List.length_pos.mp hne)
  have hr := retrieve_of_vector hv (List.length_pos.mp hne)
  have hreach : ReachesRanking w req query enhancedQuery vectorCandidates "vector_search" :=
    ⟨hcomp, by rw [hr]⟩
  refine ⟨by rw [hr], ⟨_, by rw [POST_of_reaches hreach]; rfl, rfl⟩, ?_⟩
  intro limit hmem
  rw [POST_calls_of_reaches hreach, hr] at hmem
  simp only [List.mem_cons, List.mem_append, List.mem_singleton, List.not_mem_nil, or_false,
    reduceCtorEq, false_or] at hmem
  obtain ⟨jid, hj⟩ := addJobContext_calls _ _ _ _ hmem
  cases hj

/-- Witness of C7 on the sample world. -/
theorem vector_tier_excludes_full_scan_witness :
    (retrieve sampleWorld "go developer").1 = Stage1.pool samplePool "vector_search" ∧
      (∃ p, (POST sampleWorld sampleRequest).1.pipeline = some p ∧
        p.stage1 = "vector_search (" ++ toString samplePool.length ++ " candidates)") ∧
      ∀ limit, Call.fullScan limit ∉ (POST sampleWorld sampleRequest).2 :=
  vector_tier_excludes_full_scan sampleWorld sampleRequest "go developer" "go developer"
    [⟨some ⟨some "a"⟩⟩, ⟨some ⟨some "b"⟩⟩, ⟨none⟩] samplePool
    (by unfold Composes; decide) rfl (by decide) rfl rfl (by decide)

/-- C8 (vector-tier failure falls through).  When the vector tier throws,
returns no result, or its bulk lookup errors or resolves no profile, and the
full scan returns `n ≥ 1` profiles, the pool is exactly the full-scan result in
the store's order, the stage-1 method is `full_scan`, and the response is a
status-200 response without `error` or `details`. -/
theorem vector_failure_falls_through (w : World) (req : Request)
    (query enhancedQuery : String) (allApplicants : List Profile)
    (hcomp : Composes w req query enhancedQuery)
    (hfail : VectorTierFails w enhancedQuery)
    (hdata : (w.applicantsLimit initialPoolSize).data = some allApplicants)
    (herr : (w.applicantsLimit initialPoolSize).error = none)
    (hne : 1 ≤ allApplicants.length) :
    (retrieve w enhancedQuery).1 = Stage1.pool allApplicants "full_scan" ∧
      (POST w req).1.status = 200 ∧ (POST w req).1.error = none ∧
      (POST w req).1.details = none ∧
      ∃ p, (POST w req).1.pipeline = some p ∧
        p.stage1 = "full_scan (" ++ toString allApplicants.length ++ " candidates)" := by
  have hr : (retrieve w enhancedQuery).1 = Stage1.pool allApplicants "full_scan" := by
    rw [retrieve_of_fails hfail, herr, hdata]
    simp only
    rw [if_neg (by omega)]
  have hreach : ReachesRanking w req query enhancedQuery allApplicants "full_scan" :=
    ⟨hcomp, hr⟩
  have hP := POST_of_reaches hreach
  exact ⟨hr, by rw [hP]; rfl, by rw [hP]; rfl, by rw [hP]; rfl, _, by rw [hP]; rfl, rfl⟩

/-- Witness of C8: the vector store throws and the full scan finds two
profiles. -/
theorem vector_failure_falls_through_witness :
    (retrieve fullScanWorld "go developer").1 = Stage1.pool samplePool "full_scan" ∧
      (POST fullScanWorld sampleRequest).1.status = 200 ∧
      (POST fullScanWorld sampleRequest).1.error = none ∧
      (POST fullScanWorld sampleRequest).1.details = none ∧
      ∃ p, (POST fullScanWorld sampleRequest).1.pipeline = some p ∧
        p.stage1 = "full_scan (" ++ toString samplePool.length ++ " candidates)" :=
  vector_failure_falls_through fullScanWorld sampleRequest "go developer" "go developer"
    samplePool (by unfold Composes; decide) (by unfold VectorTierFails; exact True.intro) rfl rfl
    (by decide)

/-- C9 (empty-result response).  When the vector tier yields no resolved
profile and the full scan yields none, the response has `candidates = []` and
`conversationHistory` equal to the input history followed by the single turn
`{ role: "user", content: rawQuery }`, with status 200, and neither the resume
fetch nor the rerank call is among the calls of the run. -/
theorem empty_result_response (w : World) (req : Request) (query enhancedQuery : String)
    (hcomp : Composes w req query enhancedQuery)
    (hfail : VectorTierFails w enhancedQuery)
    (herr : (w.applicantsLimit initialPoolSize).error = none)
    (hnone : (w.applicantsLimit initialPoolSize).data = none ∨
      (w.applicantsLimit initialPoolSize).data = some []) :
    (POST w req).1.candidates = some [] ∧
      (POST w req).1.conversationHistory =
        some (req.conversationHistory ++ [{ role := "user", content := query }]) ∧
      (POST w req).1.status = 200 ∧
      (∀ ids, Call.resumeFetch ids ∉ (POST w req).2) ∧
      ∀ docs q, Call.rerank docs q ∉ (POST w req).2 := by
  have hr : retrieve w enhancedQuery =
      (Stage1.emptyResponse, (vectorTier w enhancedQuery).2 ++ [Call.fullScan initialPoolSize]) := by
    rw [retrieve_of_fails hfail, herr]
    rcases hnone with h | h <;> (rw [h]; try rfl)
  have hP := POST_of_composes hcomp
  rw [retrieveAndRank_of_empty (by rw [hr])] at hP
  have hcalls : ∀ c ∈ (POST w req).2, c = Call.getUser ∨ (∃ jid, c = Call.jobLookup jid) ∨
      (∃ q k, c = Call.similaritySearch q k) ∨ (∃ ids, c = Call.bulkLookup ids) ∨
      c = Call.fullScan initialPoolSize := by
    intro c hc
    rw [hP, hr] at hc
    simp only [List.mem_cons, List.mem_append, List.mem_singleton, List.not_mem_nil,
      or_false] at hc
    rcases hc with h | h | h | h
    · exact Or.inl h
    · exact Or.inr (Or.inl (addJobContext_calls _ _ _ _ h))
    · rcases vectorTier_calls _ _ _ h with h' | h'
      · exact Or.inr (Or.inr (Or.inl h'))
      · exact Or.inr (Or.inr (Or.inr (Or.inl h')))
    · exact Or.inr (Or.inr (Or.inr (Or.inr h)))
  refine ⟨by rw [hP]; rfl, by rw [hP]; rfl, by rw [hP]; rfl, ?_, ?_⟩
  · intro ids hmem
    rcases hcalls _ hmem with h | ⟨_, h⟩ | ⟨_, _, h⟩ | ⟨_, h⟩ | h <;> cases h
  · intro docs q hmem
    rcases hcalls _ hmem with h | ⟨_, h⟩ | ⟨_, _, h⟩ | ⟨_, h⟩ | h <;> cases h

/-- Witness of C9: the vector store throws and no applicant exists. -/
theorem empty_result_response_witness :
    (POST noApplicantWorld sampleRequest).1.candidates = some [] ∧
      (POST noApplicantWorld sampleRequest).1.conversationHistory =
        some (sampleRequest.conversationHistory ++
          [{ role := "user", content := "go developer" }]) ∧
      (POST noApplicantWorld sampleRequest).1.status = 200 ∧
      (∀ ids, Call.resumeFetch ids ∉ (POST noApplicantWorld sampleRequest).2) ∧
      ∀ docs q, Call.rerank docs q ∉ (POST noApplicantWorld sampleRequest).2 :=
  empty_result_response noApplicantWorld sampleRequest "go developer" "go developer"
    (by unfold Composes; decide) (by unfold VectorTierFails; exact True.intro) rfl (Or.inr rfl)


theorem composes_of_status_200 {w : World} {req : Request}
    (h : (POST w req).1.status = 200) :
    ∃ query enhancedQuery, Composes w req query enhancedQuery := by
  unfold POST at h
  split at h
  · exact absurd h (by decide)
  · rename_i query hq
    split at h
    · exact absurd h (by decide)
    · rename_i hv
      split at h
      · exact absurd h (by decide)
      · rename_i hk
        split at h
        · exact absurd h (by decide)
        · rename_i u hu
          simp only at h
          unfold runPipeline at h
          split at h
          · have h' : (500 : Nat) = 200 := h
            exact absurd h' (by decide)
          · rename_i enhancedQuery calls hj
            exact ⟨query, enhancedQuery, hq, hv, hk, by rw [hu]; simp, by rw [hj]⟩

/-- C10 fails as stated: the empty-result response has status 200 and no
`pipeline` field. -/
theorem empty_result_has_no_pipeline :
    (POST noApplicantWorld sampleRequest).1.status = 200 ∧
      (POST noApplicantWorld sampleRequest).1.pipeline = none := by
  decide

/-- C10 (amended).  Every status-200 response contains `candidates` and
`conversationHistory` and no `error`.  It is either the empty-result response,
with `candidates = []`, no `pipeline` field and no resume fetch issued, or a
response built after a non-empty pool was retrieved, and then it contains
`pipeline` with its `stage1` and `stage2` strings. -/
theorem response_shape (w : World) (req : Request) (h : (POST w req).1.status = 200) :
    (∃ c, (POST w req).1.candidates = some c) ∧
      (∃ t, (POST w req).1.conversationHistory = some t) ∧
      (POST w req).1.error = none ∧
      (((POST w req).1.pipeline = none ∧ (POST w req).1.candidates = some [] ∧
          ∀ ids, Call.resumeFetch ids ∉ (POST w req).2) ∨
        ∃ (candidates : List Profile) (stage1Method : String)
            (ranked : List RankedCandidate) (stage2Method : String),
          candidates ≠ [] ∧ (POST w req).1.candidates = some ranked ∧
          (POST w req).1.pipeline = some
            { stage1 := stage1Method ++ " (" ++ toString candidates.length ++ " candidates)"
              stage2 := stage2Method ++ " (" ++ toString ranked.length ++
                " ranked results)" }) := by
  obtain ⟨query, enhancedQuery, hcomp⟩ := composes_of_status_200 h
  have hP := POST_of_composes hcomp
  cases hr : (retrieve w enhancedQuery).1 with
  | thrown e =>
    rw [retrieveAndRank_of_thrown hr] at hP
    rw [hP] at h
    have h' : (500 : Nat) = 200 := h
    exact absurd h' (by decide)
  | emptyResponse =>
    rw [retrieveAndRank_of_empty hr] at hP
    refine ⟨⟨[], by rw [hP]; rfl⟩, ⟨_, by rw [hP]; rfl⟩, by rw [hP]; rfl,
      Or.inl ⟨by rw [hP]; rfl, by rw [hP]; rfl, ?_⟩⟩
    intro ids hmem
    rw [hP] at hmem
    simp only [List.mem_cons, List.mem_append, reduceCtorEq, false_or] at hmem
    rcases hmem with hm | hm
    · obtain ⟨_, hj⟩ := addJobContext_calls _ _ _ _ hm
      cases hj
    · unfold retrieve at hm
      simp only at hm
      split at hm
      · have hm' : Call.resumeFetch ids ∈
            (vectorTier w enhancedQuery).2 ++ [Call.fullScan initialPoolSize] := by
          split at hm
          · exact hm
          · split at hm
            · exact hm
            · split at hm <;> exact hm
        simp only [List.mem_append, List.mem_singleton, reduceCtorEq, or_false] at hm'
        rcases vectorTier_calls _ _ _ hm' with ⟨_, _, hc⟩ | ⟨_, hc⟩ <;> cases hc
      · rcases vectorTier_calls _ _ _ hm with ⟨_, _, hc⟩ | ⟨_, hc⟩ <;> cases hc
  | pool candidates stage1Method =>
    have hreach : ReachesRanking w req query enhancedQuery candidates stage1Method :=
      ⟨hcomp, hr⟩
    have hR := POST_of_reaches hreach
    refine ⟨⟨_, by rw [hR]; rfl⟩, ⟨_, by rw [hR]; rfl⟩, by rw [hR]; rfl,
      Or.inr ⟨candidates, stage1Method, _, _, retrieve_pool_ne_nil hr, by rw [hR]; rfl,
        by rw [hR]; rfl⟩⟩

/-- Witness of the amended C10 on the sample world. -/
theorem response_shape_witness :
    (∃ c, (POST sampleWorld sampleRequest).1.candidates = some c) ∧
      (∃ t, (POST sampleWorld sampleRequest).1.conversationHistory = some t) ∧
      (POST sampleWorld sampleRequest).1.error = none ∧
      (((POST sampleWorld sampleRequest).1.pipeline = none ∧
          (POST sampleWorld sampleRequest).1.candidates = some [] ∧
          ∀ ids, Call.resumeFetch ids ∉ (POST sampleWorld sampleRequest).2) ∨
        ∃ (candidates : List Profile) (stage1Method : String)
            (ranked : List RankedCandidate) (stage2Method : String),
          candidates ≠ [] ∧ (POST sampleWorld sampleRequest).1.candidates = some ranked ∧
          (POST sampleWorld sampleRequest).1.pipeline = some
            { stage1 := stage1Method ++ " (" ++ toString candidates.length ++ " candidates)"
              stage2 := stage2Method ++ " (" ++ toString ranked.length ++
                " ranked results)" }) :=
  response_shape sampleWorld sampleRequest (by decide)

/-! ## Query validation and composition claims -/

theorem jsTrim_of_all_whiteSpace {q : String} (h : ∀ c ∈ q.data, isJsWhiteSpace c = true) :
    jsTrim q = "" := by
  unfold jsTrim
  have h1 : q.data.dropWhile isJsWhiteSpace = [] := List.dropWhile_eq_nil_iff.mpr h
  rw [h1]
  rfl

/-- C11 (query validation comes first).  For every request whose query is
missing, empty, or made only of white space, whatever the key and the session,
the handler responds with status 400 (`Search query is required`) and issues
no collaborator call at all. -/
theorem blank_query_rejected_first (w : World) (req : Request)
    (hq : req.query = none ∨
      ∃ q, req.query = some q ∧ (q = "" ∨ ∀ c ∈ q.data, isJsWhiteSpace c = true)) :
    (POST w req).1.status = 400 ∧ (POST w req).1.error = some "Search query is required" ∧
      (POST w req).2 = [] := by
  have key : POST w req = (errorResponse 400 "Search query is required" none, []) := by
    unfold POST
    rcases hq with hq | ⟨q, hq, hb⟩
    · rw [hq]
    · rw [hq]
      have hblank : q = "" ∨ jsTrim q = "" := by
        rcases hb with hb | hb
        · exact Or.inl hb
        · exact Or.inr (jsTrim_of_all_whiteSpace hb)
      simp only [if_pos hblank]
  rw [key]
  exact ⟨rfl, rfl, rfl⟩

/-- Witness of C11: a query of a space, a tab and a newline, with no key
configured and no session. -/
theorem blank_query_rejected_first_witness :
    (POST { sampleWorld with COHERE_API_KEY := none, user := none }
        { sampleRequest with query := some " \t\n" }).1.status = 400 ∧
      (POST { sampleWorld with COHERE_API_KEY := none, user := none }
        { sampleRequest with query := some " \t\n" }).1.error =
          some "Search query is required" ∧
      (POST { sampleWorld with COHERE_API_KEY := none, user := none }
        { sampleRequest with query := some " \t\n" }).2 = [] :=
  blank_query_rejected_first _ _ (Or.inr ⟨" \t\n", rfl, Or.inr (by decide)⟩)

theorem lastTurns_eq_sliceLast3 (h : List Turn) : lastTurns h = sliceLast3 h := by
  unfold lastTurns sliceLast3
  rw [List.take_reverse, List.reverse_reverse]
  congr 1
  omega

/-- C12 (query composition with history).  With no job context, the composed
query is the one the specification words: the raw query when the history is
empty, and otherwise the header, the last `min 3 |h|` turns in their order,
each rendered as `role: content` and joined by newlines, then
`Current request: ` and the raw query. -/
theorem compose_with_history (w : World) (q : String) (h : List Turn) :
    composeHistory q h = specComposeHistory q h ∧
      addJobContext w none (composeHistory q h) = (.ok (specComposeHistory q h), []) ∧
      composeHistory q [] = q := by
  have key : composeHistory q h = specComposeHistory q h := by
    unfold composeHistory specComposeHistory
    rw [lastTurns_eq_sliceLast3]
    cases h with
    | nil => rfl
    | cons a t =>
      rw [if_pos (by simp), if_neg (by simp)]
      rfl
  refine ⟨key, ?_, rfl⟩
  rw [key]
  rfl

/-- Worked instances of C12: a history of five turns (the last three are
used) and one of two turns (both are used). -/
theorem compose_with_history_witness :
    composeHistory "go developer" longHistory =
        "Previous context:\nuser: three\nassistant: four\nuser: five\n\nCurrent request: go developer" ∧
      composeHistory "go developer" (longHistory.take 2) =
        "Previous context:\nuser: one\nassistant: two\n\nCurrent request: go developer" :=
  ⟨(compose_with_history sampleWorld "go developer" longHistory).1.trans (by decide),
    (compose_with_history sampleWorld "go developer" (longHistory.take 2)).1.trans (by decide)⟩

/-- C13 (job context is outermost).  For every job found with title `T`,
description `D` and skill list `S`, the composed query is the job block
`Job Context - Title: T, Description: D, Skills: S joined by ", "`, a blank
line, and then the query composed from the raw query and the history alone. -/
theorem job_context_outermost (w : World) (jid T D q : String) (S : List String)
    (h : List Turn) (hjid : jid ≠ "")
    (hjob : w.jobSingle jid = some { title := T, description := D, required_skills := some S }) :
    (addJobContext w (some jid) (composeHistory q h)).1 =
      .ok ("Job Context - Title: " ++ T ++ ", Description: " ++ D ++ ", Skills: " ++
        ", ".intercalate S ++ "\n\n" ++ composeHistory q h) := by
  unfold addJobContext
  simp only [if_neg hjid, hjob, jobContext]

/-- Witness of C13: the job `j1` and the five-turn history. -/
theorem job_context_outermost_witness :
    (addJobContext jobWorld (some "j1") (composeHistory "go developer" longHistory)).1 =
      .ok ("Job Context - Title: " ++ "Backend Engineer" ++ ", Description: " ++
        "Build services" ++ ", Skills: " ++ ", ".intercalate ["Go", "SQL"] ++ "\n\n" ++
        composeHistory "go developer" longHistory) :=
  job_context_outermost jobWorld "j1" "Backend Engineer" "Build services" "go developer"
    ["Go", "SQL"] longHistory (by decide) rfl

theorem composeHistory_suffix (q : String) (h : List Turn) :
    ∃ pre, composeHistory q h = pre ++ q := by
  unfold composeHistory
  split
  · exact ⟨_, rfl⟩
  · exact ⟨"", by simp⟩

/-- C14 (the raw query is kept).  For every raw query, every history and
every job context that is absent or has a skill list, the composition returns
a query, and that query ends with the raw query: the raw query is a suffix,
hence a contiguous substring, of the composed query. -/
theorem composed_query_ends_with_raw_query (w : World) (jobId : Option String) (q : String)
    (h : List Turn)
    (hjob : ∀ jid job, jobId = some jid → w.jobSingle jid = some job →
      job.required_skills ≠ none) :
    ∃ E pre, (addJobContext w jobId (composeHistory q h)).1 = .ok E ∧ E = pre ++ q ∧
      q.data <:+ E.data ∧ q.data <:+: E.data := by
  obtain ⟨pre, hpre⟩ := composeHistory_suffix q h
  have fin : ∀ E pre', E = pre' ++ q → E = pre' ++ q ∧ q.data <:+ E.data ∧ q.data <:+: E.data := by
    intro E pre' hE
    have hs : q.data <:+ E.data := ⟨pre'.data, by rw [hE, String.data_append]⟩
    exact ⟨hE, hs, hs.isInfix⟩
  unfold addJobContext
  split
  · exact ⟨_, pre, rfl, fin _ _ hpre⟩
  · rename_i jid
    split
    · exact ⟨_, pre, rfl, fin _ _ hpre⟩
    · split
      · exact ⟨_, pre, rfl, fin _ _ hpre⟩
      · rename_i job hj
        have hs := hjob jid job rfl hj
        cases hrs : job.required_skills with
        | none => exact absurd hrs hs
        | some skills =>
          simp only [jobContext, hrs]
          refine ⟨_, ("Job Context - Title: " ++ job.title ++ ", Description: " ++
            job.description ++ ", Skills: " ++ ", ".intercalate skills ++ "\n\n") ++ pre, rfl,
            fin _ _ ?_⟩
          simp only [hpre, String.append_assoc]

/-- Witness of C14: the job `j1` and the five-turn history. -/
theorem composed_query_ends_with_raw_query_witness :
    ∃ E pre, (addJobContext jobWorld (some "j1") (composeHistory "go developer" longHistory)).1 =
        .ok E ∧ E = pre ++ "go developer" ∧
      "go developer".data <:+ E.data ∧ "go developer".data <:+: E.data :=
  composed_query_ends_with_raw_query jobWorld (some "j1") "go developer" longHistory
    (by
      intro jid job _ hjob
      unfold jobWorld at hjob
      simp only at hjob
      split at hjob
      · cases hjob
        simp
      · cases hjob)

/-- C15 (only the last three turns matter).  For every raw query and job
context, two histories that end with the same three turns (whatever comes
before them) give the same composed query, and the same job lookup. -/
theorem only_last_three_turns_matter (w : World) (jobId : Option String) (q : String)
    (h₁ h₂ p₁ p₂ t : List Turn) (ht : t.length = 3) (e₁ : h₁ = p₁ ++ t) (e₂ : h₂ = p₂ ++ t) :
    composeHistory q h₁ = composeHistory q h₂ ∧
      addJobContext w jobId (composeHistory q h₁) = addJobContext w jobId (composeHistory q h₂) := by
  have hs : ∀ p : List Turn, sliceLast3 (p ++ t) = t := by
    intro p
    unfold sliceLast3
    rw [List.length_append, ht, Nat.add_sub_cancel, List.drop_left]
  have hl : ∀ p : List Turn, (p ++ t).length > 0 := by
    intro p
    rw [List.length_append, ht]
    omega
  have key : composeHistory q h₁ = composeHistory q h₂ := by
    subst e₁ e₂
    unfold composeHistory
    rw [if_pos (hl p₁), if_pos (hl p₂), hs p₁, hs p₂]
  exact ⟨key, by rw [key]⟩

/-- Witness of C15: the five-turn history and the same history without its
first turn. -/
theorem only_last_three_turns_matter_witness :
    composeHistory "go developer" longHistory =
        composeHistory "go developer" (longHistory.drop 1) ∧
      addJobContext jobWorld (some "j1") (composeHistory "go developer" longHistory) =
        addJobContext jobWorld (some "j1")
          (composeHistory "go developer" (longHistory.drop 1)) :=
  only_last_three_turns_matter jobWorld (some "j1") "go developer" longHistory
    (longHistory.drop 1) (longHistory.take 2) ((longHistory.drop 1).take 1) (longHistory.drop 2)
    (by decide) (by decide) (by decide)


theorem retrieve_of_empty_vector {w : World} {enhancedQuery : String}
    (h : (vectorTier w enhancedQuery).1.1 = []) :
    retrieve w enhancedQuery =
      (match (w.applicantsLimit initialPoolSize).error with
        | some fetchError =>
          Stage1.thrown ⟨"Failed to fetch candidates: " ++ fetchError.message⟩
        | none =>
          match (w.applicantsLimit initialPoolSize).data with
          | none => Stage1.emptyResponse
          | some allApplicants =>
            if allApplicants.length = 0 then Stage1.emptyResponse
            else Stage1.pool allApplicants "full_scan",
        (vectorTier w enhancedQuery).2 ++ [Call.fullScan initialPoolSize]) := by
  unfold retrieve
  simp only [h, List.length_nil, if_true]
  split
  · rfl
  · split
    · rfl
    · split <;> rfl

theorem retrieve_of_nonempty_vector {w : World} {enhancedQuery : String}
    (h : (vectorTier w enhancedQuery).1.1 ≠ []) :
    retrieve w enhancedQuery =
      (Stage1.pool (vectorTier w enhancedQuery).1.1 (vectorTier w enhancedQuery).1.2,
        (vectorTier w enhancedQuery).2) := by
  unfold retrieve
  simp only
  rw [if_neg]
  intro hlen
  exact h (List.length_eq_zero.mp hlen)

theorem vectorTier_method (w : World) (enhancedQuery : String)
    (h : (vectorTier w enhancedQuery).1.1 ≠ []) :
    (vectorTier w enhancedQuery).1.2 = "vector_search" := by
  unfold vectorTier at h ⊢
  split
  · rename_i hs
    rw [hs] at h
    exact absurd rfl h
  · rename_i vectorResults hs
    rw [hs] at h
    simp only at h
    split
    · rename_i hlen
      rw [if_pos hlen] at h
      dsimp only at h ⊢
      split
      · rename_i vc herr hdata
        rw [herr, hdata] at h
        simp only at h
        split
        · rfl
        · rename_i hl
          rw [if_neg hl] at h
          exact absurd rfl h
      · rename_i hno
        split at h
        · rename_i vc herr hdata
          exact absurd hdata (hno vc herr)
        · exact absurd rfl h
    · rename_i hlen
      rw [if_neg hlen] at h
      exact absurd rfl h

theorem retrieve_method {w : World} {enhancedQuery : String} {candidates : List Profile}
    {stage1Method : String}
    (h : (retrieve w enhancedQuery).1 = Stage1.pool candidates stage1Method) :
    stage1Method = "vector_search" ∨ stage1Method = "full_scan" := by
  by_cases hv : (vectorTier w enhancedQuery).1.1 = []
  · rw [retrieve_of_empty_vector hv] at h
    simp only at h
    split at h
    · cases h
    · split at h
      · cases h
      · split at h
        · cases h
        · simp only [Stage1.pool.injEq] at h
          exact Or.inr h.2.symm
  · rw [retrieve_of_nonempty_vector hv] at h
    simp only [Stage1.pool.injEq] at h
    rw [← h.2]
    exact Or.inl (vectorTier_method w enhancedQuery hv)

theorem stage2_method (w : World) (candidates : List Profile) (resumeMap : ResumeMap)
    (enhancedQuery : String) :
    (stage2 w candidates resumeMap enhancedQuery).1.2 = "rerank" ∨
      (stage2 w candidates resumeMap enhancedQuery).1.2 = "fallback_no_rerank" := by
  cases h : tryRerank w candidates resumeMap enhancedQuery with
  | ok ranked => exact Or.inl (by rw [stage2_of_ok h])
  | error e => exact Or.inr (by rw [stage2_of_error h])

theorem POST_trichotomy (w : World) (req : Request) :
    (∃ status error details, status ≠ 200 ∧
        (POST w req).1 = errorResponse status error details) ∨
      (∃ query enhancedQuery, Composes w req query enhancedQuery ∧
        (retrieve w enhancedQuery).1 = Stage1.emptyResponse ∧
        (POST w req).1 = emptyResultResponse req.conversationHistory query) ∨
      ∃ query enhancedQuery candidates stage1Method,
        ReachesRanking w req query enhancedQuery candidates stage1Method := by
  by_cases hc : ∃ query enhancedQuery, Composes w req query enhancedQuery
  · obtain ⟨query, enhancedQuery, hcomp⟩ := hc
    have hP := POST_of_composes hcomp
    cases hr : (retrieve w enhancedQuery).1 with
    | thrown e =>
      rw [retrieveAndRank_of_thrown hr] at hP
      exact Or.inl ⟨500, "Internal server error", some e.message, by decide, by rw [hP]; rfl⟩
    | emptyResponse =>
      rw [retrieveAndRank_of_empty hr] at hP
      exact Or.inr (Or.inl ⟨query, enhancedQuery, hcomp, hr, by rw [hP]⟩)
    | pool candidates stage1Method =>
      exact Or.inr (Or.inr ⟨query, enhancedQuery, candidates, stage1Method, hcomp, hr⟩)
  · refine Or.inl ?_
    unfold POST
    split
    · exact ⟨400, _, _, by decide, rfl⟩
    · rename_i query hq
      split
      · exact ⟨400, _, _, by decide, rfl⟩
      · rename_i hv
        split
        · exact ⟨500, _, _, by decide, rfl⟩
        · rename_i hk
          split
          · exact ⟨401, _, _, by decide, rfl⟩
          · rename_i u hu
            simp only
            unfold runPipeline
            split
            · rename_i e calls hj
              exact ⟨500, "Internal server error", some e.message, by decide, rfl⟩
            · rename_i enhancedQuery calls hj
              exact absurd ⟨query, enhancedQuery, hq, hv, hk, by rw [hu]; simp, by rw [hj]⟩ hc


theorem addJobContext_ok_of_wellformed (w : World) (jobId : Option String) (enhancedQuery : String)
    (hjob : ∀ jid job, jobId = some jid → w.jobSingle jid = some job →
      job.required_skills ≠ none) :
    ∃ E, (addJobContext w jobId enhancedQuery).1 = .ok E := by
  unfold addJobContext
  split
  · exact ⟨_, rfl⟩
  · rename_i jid
    split
    · exact ⟨_, rfl⟩
    · split
      · exact ⟨_, rfl⟩
      · rename_i job hj
        have hs := hjob jid job rfl hj
        cases hrs : job.required_skills with
        | none => exact absurd hrs hs
        | some skills =>
          simp only [jobContext, hrs]
          exact ⟨_, rfl⟩

theorem retrieve_calls (w : World) (enhancedQuery : String) :
    ∀ c ∈ (retrieve w enhancedQuery).2,
      (∃ q k, c = Call.similaritySearch q k) ∨ (∃ ids, c = Call.bulkLookup ids) ∨
        c = Call.fullScan initialPoolSize := by
  intro c hc
  by_cases hv : (vectorTier w enhancedQuery).1.1 = []
  · rw [retrieve_of_empty_vector hv] at hc
    simp only [List.mem_append, List.mem_singleton] at hc
    rcases hc with h | h
    · rcases vectorTier_calls _ _ _ h with h' | h'
      · exact Or.inl h'
      · exact Or.inr (Or.inl h')
    · exact Or.inr (Or.inr h)
  · rw [retrieve_of_nonempty_vector hv] at hc
    rcases vectorTier_calls _ _ _ hc with h' | h'
    · exact Or.inl h'
    · exact Or.inr (Or.inl h')

theorem fullScan_mem_of_empty_vector {w : World} {req : Request} {query enhancedQuery : String}
    (hcomp : Composes w req query enhancedQuery)
    (hv : (vectorTier w enhancedQuery).1.1 = []) :
    Call.fullScan initialPoolSize ∈ (POST w req).2 := by
  have hmem : Call.fullScan initialPoolSize ∈ (retrieve w enhancedQuery).2 := by
    rw [retrieve_of_empty_vector hv]
    simp
  have hsub : Call.fullScan initialPoolSize ∈
      (retrieveAndRank w req.conversationHistory query enhancedQuery).2 := by
    cases hr : (retrieve w enhancedQuery).1 with
    | thrown e => rw [retrieveAndRank_of_thrown hr]; exact hmem
    | emptyResponse => rw [retrieveAndRank_of_empty hr]; exact hmem
    | pool candidates stage1Method =>
      rw [retrieveAndRank_of_pool hr]
      exact List.mem_append_left _ hmem
  rw [POST_of_composes hcomp]
  exact List.mem_cons_of_mem _ (List.mem_append_right _ hsub)

/-! ## Conversation tracking and trace claims -/

/-- C16 (conversation tracking).  In every response produced after a
non-empty pool was retrieved, `conversationHistory` is the input history
followed by exactly two turns: the user turn with the raw query (not the
composed one) and the assistant turn `Found N candidates matching your
criteria.`, where `N` is the length of the `candidates` list of the same
response. -/
theorem conversation_tracking (w : World) (req : Request) (query enhancedQuery : String)
    (candidates : List Profile) (stage1Method : String)
    (hreach : ReachesRanking w req query enhancedQuery candidates stage1Method) :
    req.query = some query ∧
    ∃ ranked, (POST w req).1.candidates = some ranked ∧
      (POST w req).1.conversationHistory = some (req.conversationHistory ++
        [{ role := "user", content := query },
         { role := "assistant"
           content := "Found " ++ toString ranked.length ++
             " candidates matching your criteria." }]) := by
  have hP := POST_of_reaches hreach
  exact ⟨hreach.1.1, _, by rw [hP]; rfl, by rw [hP]; rfl⟩

/-- Witness of C16: a request with a job and a history, so that the composed
query differs from the raw one. -/
theorem conversation_tracking_witness :
    jobRequest.query = some "go developer" ∧
    ∃ ranked, (POST jobWorld jobRequest).1.candidates = some ranked ∧
      (POST jobWorld jobRequest).1.conversationHistory = some (longHistory ++
        [{ role := "user", content := "go developer" },
         { role := "assistant"
           content := "Found " ++ toString ranked.length ++
             " candidates matching your criteria." }]) :=
  conversation_tracking jobWorld
    jobRequest
    "go developer"
    ("Job Context - Title: Backend Engineer, Description: Build services, Skills: Go, SQL\n\n" ++
      "Previous context:\nuser: three\nassistant: four\nuser: five\n\nCurrent request: go developer")
    samplePool "vector_search" (by unfold ReachesRanking Composes; decide!)

/-- C17 (pipeline trace).  In every response that has a `pipeline` field, a
pool was retrieved, `stage1` is the stage-1 method followed by
` (|pool| candidates)` and `stage2` is the stage-2 method followed by
` (|candidates| ranked results)`. -/
theorem pipeline_trace (w : World) (req : Request) (p : Pipeline)
    (hp : (POST w req).1.pipeline = some p) :
    ∃ query enhancedQuery candidates stage1Method,
      ReachesRanking w req query enhancedQuery candidates stage1Method ∧
      ∃ ranked, (POST w req).1.candidates = some ranked ∧
        p.stage1 = stage1Method ++ " (" ++ toString candidates.length ++ " candidates)" ∧
        p.stage2 = (stage2 w candidates (resumeMapOf w candidates) enhancedQuery).1.2 ++
          " (" ++ toString ranked.length ++ " ranked results)" := by
  rcases POST_trichotomy w req with ⟨_, _, _, _, h⟩ | ⟨_, _, _, _, h⟩ |
      ⟨query, enhancedQuery, candidates, stage1Method, hreach⟩
  · rw [h] at hp
    cases hp
  · rw [h] at hp
    cases hp
  · have hP := POST_of_reaches hreach
    rw [hP] at hp
    simp only [rankedResponse, Option.some.injEq] at hp
    subst hp
    exact ⟨query, enhancedQuery, candidates, stage1Method, hreach, _, by rw [hP]; rfl, rfl, rfl⟩

/-- Witness of C17, the example of the specification: a vector-search pool of
twelve of which nine pass the threshold, with an empty input history, gives
`vector_search (12 candidates)`, `rerank (9 ranked results)`, nine candidates
and a history of length two. -/
theorem pipeline_trace_witness :
    ((POST exampleWorld sampleRequest).1.pipeline =
        some { stage1 := "vector_search (12 candidates)"
               stage2 := "rerank (9 ranked results)" } ∧
      (POST exampleWorld sampleRequest).1.candidates.map List.length = some 9 ∧
      (POST exampleWorld sampleRequest).1.conversationHistory.map List.length = some 2) ∧
    ∃ query enhancedQuery candidates stage1Method,
      ReachesRanking exampleWorld sampleRequest query enhancedQuery candidates stage1Method ∧
      ∃ ranked, (POST exampleWorld sampleRequest).1.candidates = some ranked ∧
        "vector_search (12 candidates)" =
          stage1Method ++ " (" ++ toString candidates.length ++ " candidates)" ∧
        "rerank (9 ranked results)" =
          (stage2 exampleWorld candidates (resumeMapOf exampleWorld candidates)
            enhancedQuery).1.2 ++ " (" ++ toString ranked.length ++ " ranked results)" :=
  ⟨by decide!,
    pipeline_trace exampleWorld sampleRequest
      { stage1 := "vector_search (12 candidates)", stage2 := "rerank (9 ranked results)" }
      (by decide!)⟩

/-- C18 (method tags).  In every response carrying a pipeline trace, the
stage-1 method is `vector_search` or `full_scan` (never the placeholder
`fallback`) and the stage-2 method is `rerank` or `fallback_no_rerank`; the
two trace strings start with these tags. -/
theorem method_tags (w : World) (req : Request) (p : Pipeline)
    (hp : (POST w req).1.pipeline = some p) :
    ∃ query enhancedQuery candidates stage1Method stage2Method,
      ReachesRanking w req query enhancedQuery candidates stage1Method ∧
      stage2Method = (stage2 w candidates (resumeMapOf w candidates) enhancedQuery).1.2 ∧
      (stage1Method = "vector_search" ∨ stage1Method = "full_scan") ∧
      stage1Method ≠ "fallback" ∧
      (stage2Method = "rerank" ∨ stage2Method = "fallback_no_rerank") ∧
      ∃ n k : Nat, p.stage1 = stage1Method ++ " (" ++ toString n ++ " candidates)" ∧
        p.stage2 = stage2Method ++ " (" ++ toString k ++ " ranked results)" := by
  rcases POST_trichotomy w req with ⟨_, _, _, _, h⟩ | ⟨_, _, _, _, h⟩ |
      ⟨query, enhancedQuery, candidates, stage1Method, hreach⟩
  · rw [h] at hp
    cases hp
  · rw [h] at hp
    cases hp
  · have hP := POST_of_reaches hreach
    rw [hP] at hp
    simp only [rankedResponse, Option.some.injEq] at hp
    subst hp
    have hm := retrieve_method hreach.2
    refine ⟨query, enhancedQuery, candidates, stage1Method, _, hreach, rfl, hm, ?_,
      stage2_method _ _ _ _, _, _, rfl, rfl⟩
    rcases hm with hm | hm <;> (rw [hm]; decide)

/-- Witness of C18 on the world where both the vector store and the reranker
throw. -/
theorem method_tags_witness :
    ∃ query enhancedQuery candidates stage1Method stage2Method,
      ReachesRanking degradedWorld sampleRequest query enhancedQuery candidates stage1Method ∧
      stage2Method = (stage2 degradedWorld candidates (resumeMapOf degradedWorld candidates)
        enhancedQuery).1.2 ∧
      (stage1Method = "vector_search" ∨ stage1Method = "full_scan") ∧
      stage1Method ≠ "fallback" ∧
      (stage2Method = "rerank" ∨ stage2Method = "fallback_no_rerank") ∧
      ∃ n k : Nat, "full_scan (13 candidates)" = stage1Method ++ " (" ++ toString n ++ " candidates)" ∧
        "fallback_no_rerank (12 ranked results)" =
          stage2Method ++ " (" ++ toString k ++ " ranked results)" :=
  method_tags degradedWorld sampleRequest
    { stage1 := "full_scan (13 candidates)", stage2 := "fallback_no_rerank (12 ranked results)" }
    (by decide!)


/-! ## Degradation and failure claims -/

/-- C19 (degradations are never surfaced).  For every request with a query
that passes validation, a configured key and an authenticated caller, with the
job absent or well-formed, if the full-scan read returns no error whenever it
is issued, the response has status 200 and no `error`, whether or not the
vector tier or the rerank call fail.  When both fail and the full scan returns
`n ≥ 1` profiles, the trace is `full_scan (n candidates)` and
`fallback_no_rerank (min 12 n ranked results)`. -/
theorem degradations_not_surfaced (w : World) (req : Request) (query : String)
    (hq : req.query = some query) (hv : ¬(query = "" ∨ jsTrim query = ""))
    (hk : ¬(w.COHERE_API_KEY = none ∨ w.COHERE_API_KEY = some "")) (hu : w.user ≠ none)
    (hjob : ∀ jid job, req.jobId = some jid → w.jobSingle jid = some job →
      job.required_skills ≠ none)
    (hscan : Call.fullScan initialPoolSize ∈ (POST w req).2 →
      (w.applicantsLimit initialPoolSize).error = none) :
    (POST w req).1.status = 200 ∧ (POST w req).1.error = none ∧
      ∃ enhancedQuery, Composes w req query enhancedQuery ∧
        ∀ (allApplicants : List Profile) (e : JsError),
          VectorTierFails w enhancedQuery →
          (w.applicantsLimit initialPoolSize).data = some allApplicants →
          1 ≤ allApplicants.length →
          w.compressDocuments (documentsToRerank allApplicants (resumeMapOf w allApplicants))
            enhancedQuery = .error e →
          (POST w req).1.pipeline = some
            { stage1 := "full_scan (" ++ toString allApplicants.length ++ " candidates)"
              stage2 := "fallback_no_rerank (" ++ toString (min 12 allApplicants.length) ++
                " ranked results)" } := by
  obtain ⟨enhancedQuery, hE⟩ :=
    addJobContext_ok_of_wellformed w req.jobId (composeHistory query req.conversationHistory) hjob
  have hcomp : Composes w req query enhancedQuery := ⟨hq, hv, hk, hu, hE⟩
  have hP := POST_of_composes hcomp
  have hstatus : (POST w req).1.status = 200 ∧ (POST w req).1.error = none := by
    cases hr : (retrieve w enhancedQuery).1 with
    | thrown e =>
      exfalso
      by_cases hvt : (vectorTier w enhancedQuery).1.1 = []
      · have herr := hscan (fullScan_mem_of_empty_vector hcomp hvt)
        rw [retrieve_of_empty_vector hvt, herr] at hr
        simp only at hr
        split at hr
        · cases hr
        · split at hr <;> cases hr
      · rw [retrieve_of_nonempty_vector hvt] at hr
        cases hr
    | emptyResponse =>
      rw [retrieveAndRank_of_empty hr] at hP
      exact ⟨by rw [hP]; rfl, by rw [hP]; rfl⟩
    | pool candidates stage1Method =>
      have hR := POST_of_reaches (⟨hcomp, hr⟩ :
        ReachesRanking w req query enhancedQuery candidates stage1Method)
      exact ⟨by rw [hR]; rfl, by rw [hR]; rfl⟩
  refine ⟨hstatus.1, hstatus.2, enhancedQuery, hcomp, ?_⟩
  intro allApplicants e hfail hdata hne hrerank
  have herr := hscan (fullScan_mem_of_empty_vector hcomp
    (congrArg Prod.fst (vectorTier_of_fails hfail)))
  have hr : (retrieve w enhancedQuery).1 = Stage1.pool allApplicants "full_scan" := by
    rw [retrieve_of_fails hfail, herr, hdata]
    simp only
    rw [if_neg (by omega)]
  have hR := POST_of_reaches (⟨hcomp, hr⟩ :
    ReachesRanking w req query enhancedQuery allApplicants "full_scan")
  rw [hR, stage2_of_call_error hrerank]
  simp only [rankedResponse, length_fallbackRanking]
  rfl

/-- Witness of C19: the vector store and the reranker throw and the full scan
finds thirteen profiles. -/
theorem degradations_not_surfaced_witness :
    ((POST degradedWorld sampleRequest).1.pipeline = some
        { stage1 := "full_scan (13 candidates)"
          stage2 := "fallback_no_rerank (12 ranked results)" }) ∧
    ((POST degradedWorld sampleRequest).1.status = 200 ∧
      (POST degradedWorld sampleRequest).1.error = none ∧
      ∃ enhancedQuery, Composes degradedWorld sampleRequest "go developer" enhancedQuery ∧
        ∀ (allApplicants : List Profile) (e : JsError),
          VectorTierFails degradedWorld enhancedQuery →
          (degradedWorld.applicantsLimit initialPoolSize).data = some allApplicants →
          1 ≤ allApplicants.length →
          degradedWorld.compressDocuments
            (documentsToRerank allApplicants (resumeMapOf degradedWorld allApplicants))
            enhancedQuery = .error e →
          (POST degradedWorld sampleRequest).1.pipeline = some
            { stage1 := "full_scan (" ++ toString allApplicants.length ++ " candidates)"
              stage2 := "fallback_no_rerank (" ++ toString (min 12 allApplicants.length) ++
                " ranked results)" }) :=
  ⟨by decide!,
    degradations_not_surfaced degradedWorld sampleRequest "go developer" rfl (by decide)
      (by decide) (by decide) (by intro jid job h; cases h) (fun _ => rfl)⟩

/-- C20 (full-scan failure is fatal).  For every valid request in which the
vector tier yields no pool and the full-scan read returns an error, the
response has status 500, with the error of the outer `catch` and no
`candidates`, `conversationHistory` or `pipeline`, and neither the resume fetch
nor the rerank call is among the calls of the run. -/
theorem full_scan_failure_is_fatal (w : World) (req : Request) (query enhancedQuery : String)
    (fetchError : DbError)
    (hcomp : Composes w req query enhancedQuery)
    (hfail : VectorTierFails w enhancedQuery)
    (herr : (w.applicantsLimit initialPoolSize).error = some fetchError) :
    (POST w req).1.status = 500 ∧ (POST w req).1.candidates = none ∧
      (POST w req).1.conversationHistory = none ∧ (POST w req).1.pipeline = none ∧
      (POST w req).1.error = some "Internal server error" ∧
      (POST w req).1.details = some ("Failed to fetch candidates: " ++ fetchError.message) ∧
      (∀ ids, Call.resumeFetch ids ∉ (POST w req).2) ∧
      ∀ docs q, Call.rerank docs q ∉ (POST w req).2 := by
  have hr : (retrieve w enhancedQuery).1 =
      Stage1.thrown ⟨"Failed to fetch candidates: " ++ fetchError.message⟩ := by
    rw [retrieve_of_fails hfail, herr]
  have hP := POST_of_composes hcomp
  rw [retrieveAndRank_of_thrown hr] at hP
  have hcalls : ∀ c ∈ (POST w req).2, c = Call.getUser ∨ (∃ jid, c = Call.jobLookup jid) ∨
      (∃ q k, c = Call.similaritySearch q k) ∨ (∃ ids, c = Call.bulkLookup ids) ∨
      c = Call.fullScan initialPoolSize := by
    intro c hc
    rw [hP] at hc
    simp only [List.mem_cons, List.mem_append] at hc
    rcases hc with h | h | h
    · exact Or.inl h
    · exact Or.inr (Or.inl (addJobContext_calls _ _ _ _ h))
    · exact Or.inr (Or.inr (retrieve_calls _ _ _ h))
  refine ⟨by rw [hP]; rfl, by rw [hP]; rfl, by rw [hP]; rfl, by rw [hP]; rfl, by rw [hP]; rfl,
    by rw [hP]; rfl, ?_, ?_⟩
  · intro ids hmem
    rcases hcalls _ hmem with h | ⟨_, h⟩ | ⟨_, _, h⟩ | ⟨_, h⟩ | h <;> cases h
  · intro docs q hmem
    rcases hcalls _ hmem with h | ⟨_, h⟩ | ⟨_, _, h⟩ | ⟨_, h⟩ | h <;> cases h

/-- Witness of C20: the vector store throws and the full scan errors. -/
theorem full_scan_failure_is_fatal_witness :
    (POST scanErrorWorld sampleRequest).1.status = 500 ∧
      (POST scanErrorWorld sampleRequest).1.candidates = none ∧
      (POST scanErrorWorld sampleRequest).1.conversationHistory = none ∧
      (POST scanErrorWorld sampleRequest).1.pipeline = none ∧
      (POST scanErrorWorld sampleRequest).1.error = some "Internal server error" ∧
      (POST scanErrorWorld sampleRequest).1.details =
        some ("Failed to fetch candidates: " ++ (⟨"connection refused"⟩ : DbError).message) ∧
      (∀ ids, Call.resumeFetch ids ∉ (POST scanErrorWorld sampleRequest).2) ∧
      ∀ docs q, Call.rerank docs q ∉ (POST scanErrorWorld sampleRequest).2 :=
  full_scan_failure_is_fatal scanErrorWorld sampleRequest "go developer" "go developer"
    ⟨"connection refused"⟩ (by unfold Composes; decide)
    (by unfold VectorTierFails; exact True.intro) rfl

/-! ## Guard claims -/

/-- C21 fails as stated: a request with a valid query from a caller without a
session, when no key is configured, gets the 500 of the key check (line 24),
which runs before the session check (line 33). -/
theorem unauthenticated_without_key_gets_500 :
    noKeyNoSessionWorld.user = none ∧
      sampleRequest.query = some "go developer" ∧
      (POST noKeyNoSessionWorld sampleRequest).1.status = 500 ∧
      (POST noKeyNoSessionWorld sampleRequest).1.error =
        some "Cohere API key not configured." := by
  decide

/-- C21 (amended).  For every request with a query that passes validation,
when the key is configured and the caller has no authenticated session, the
response has status 401 and the only call issued is the session lookup: no
retrieval, enrichment or rerank call. -/
theorem unauthenticated_gets_401 (w : World) (req : Request) (query : String)
    (hq : req.query = some query) (hv : ¬(query = "" ∨ jsTrim query = ""))
    (hk : ¬(w.COHERE_API_KEY = none ∨ w.COHERE_API_KEY = some ""))
    (hu : w.user = none) :
    (POST w req).1.status = 401 ∧ (POST w req).1.error = some "Authentication required." ∧
      (POST w req).2 = [Call.getUser] ∧
      (∀ q k, Call.similaritySearch q k ∉ (POST w req).2) ∧
      (∀ ids, Call.bulkLookup ids ∉ (POST w req).2) ∧
      (∀ limit, Call.fullScan limit ∉ (POST w req).2) ∧
      (∀ ids, Call.resumeFetch ids ∉ (POST w req).2) ∧
      ∀ docs q, Call.rerank docs q ∉ (POST w req).2 := by
  have key : POST w req =
      (errorResponse 401 "Authentication required." none, [Call.getUser]) := by
    unfold POST
    rw [hq]
    simp only [if_neg hv, if_neg hk, hu]
  rw [key]
  refine ⟨rfl, rfl, rfl, ?_, ?_, ?_, ?_, ?_⟩ <;> intros <;> simp

/-- Witness of the amended C21: the sample world without a session. -/
theorem unauthenticated_gets_401_witness :
    (POST anonymousWorld sampleRequest).1.status = 401 ∧
      (POST anonymousWorld sampleRequest).1.error = some "Authentication required." ∧
      (POST anonymousWorld sampleRequest).2 = [Call.getUser] ∧
      (∀ q k, Call.similaritySearch q k ∉ (POST anonymousWorld sampleRequest).2) ∧
      (∀ ids, Call.bulkLookup ids ∉ (POST anonymousWorld sampleRequest).2) ∧
      (∀ limit, Call.fullScan limit ∉ (POST anonymousWorld sampleRequest).2) ∧
      (∀ ids, Call.resumeFetch ids ∉ (POST anonymousWorld sampleRequest).2) ∧
      ∀ docs q, Call.rerank docs q ∉ (POST anonymousWorld sampleRequest).2 :=
  unauthenticated_gets_401 anonymousWorld sampleRequest "go developer" rfl (by decide)
    (by decide) rfl

/-- C22 (missing credential is a 500).  For every request with a query that
passes validation, when the API key is not configured (unset or empty) the
response has status 500 and no call at all is issued, whatever the session. -/
theorem missing_credential_is_500 (w : World) (req : Request) (query : String)
    (hq : req.query = some query) (hv : ¬(query = "" ∨ jsTrim query = ""))
    (hk : w.COHERE_API_KEY = none ∨ w.COHERE_API_KEY = some "") :
    (POST w req).1.status = 500 ∧
      (POST w req).1.error = some "Cohere API key not configured." ∧
      (POST w req).2 = [] := by
  have key : POST w req =
      (errorResponse 500 "Cohere API key not configured." none, []) := by
    unfold POST
    rw [hq]
    simp only [if_neg hv, if_pos hk]
  rw [key]
  exact ⟨rfl, rfl, rfl⟩

/-- Witness of C22: no key and no session. -/
theorem missing_credential_is_500_witness :
    (POST noKeyNoSessionWorld sampleRequest).1.status = 500 ∧
      (POST noKeyNoSessionWorld sampleRequest).1.error =
        some "Cohere API key not configured." ∧
      (POST noKeyNoSessionWorld sampleRequest).2 = [] :=
  missing_credential_is_500 noKeyNoSessionWorld sampleRequest "go developer" rfl (by decide)
    (Or.inl rfl)


/-! ## Enrichment claims -/

theorem resumeMap_get_set (m : ResumeMap) (k v u : String) :
    ResumeMap.get (ResumeMap.set m k v) u =
      (ResumeMap.get m u).or (if k = u then some v else none) := by
  unfold ResumeMap.get ResumeMap.set
  rw [List.find?_append]
  cases hf : List.find? (fun kv => kv.1 == u) m with
  | some kv => rfl
  | none =>
    simp only [Option.none_or, Option.map_none', List.find?_cons, List.find?_nil]
    by_cases hk : k = u
    · simp [hk]
    · have hb : (k == u) = false := by simpa using hk
      simp [hk, hb]

theorem resumeMap_has_eq (m : ResumeMap) (u : String) :
    ResumeMap.has m u = (ResumeMap.get m u).isSome := by
  unfold ResumeMap.has ResumeMap.get
  induction m with
  | nil => rfl
  | cons kv t ih =>
    simp only [List.any_cons, List.find?_cons]
    cases hk : kv.1 == u with
    | true => rfl
    | false => simpa using ih

theorem resumeSummaryOf_eq_spec (r : Resume) : resumeSummaryOf r = specSummaryOf r := by
  unfold resumeSummaryOf specSummaryOf orStr
  cases r.feedback with
  | none => rfl
  | some f =>
    cases hs : f.summary with
    | none => simp [hs]
    | some s =>
      simp only [Option.bind, hs]
      split
      · rename_i h; exact h.symm
      · rfl

theorem resumeMap_get_foldl (rs : List Resume) (m : ResumeMap) (u : String) :
    ResumeMap.get (rs.foldl (fun m resume =>
        if m.has resume.user_id then m else m.set resume.user_id (resumeSummaryOf resume)) m) u =
      (ResumeMap.get m u).or ((rs.find? (fun r => r.user_id == u)).map resumeSummaryOf) := by
  induction rs generalizing m with
  | nil => simp
  | cons r t ih =>
    rw [List.foldl_cons, ih, List.find?_cons]
    by_cases hhas : ResumeMap.has m r.user_id = true
    · rw [if_pos hhas]
      by_cases hu : r.user_id = u
      · subst hu
        rw [resumeMap_has_eq] at hhas
        obtain ⟨x, hx⟩ := Option.isSome_iff_exists.mp hhas
        rw [hx]
        rfl
      · have : (r.user_id == u) = false := by simpa using hu
        rw [this]
    · rw [if_neg hhas, resumeMap_get_set]
      by_cases hu : r.user_id = u
      · subst hu
        have hnone : ResumeMap.get m r.user_id = none := by
          rw [resumeMap_has_eq] at hhas
          simpa using hhas
        simp [hnone]
      · have : (r.user_id == u) = false := by simpa using hu
        rw [this]
        simp only [if_neg hu]
        cases ResumeMap.get m u <;> simp

theorem resumeMap_get_build (rs : List Resume) (u : String) :
    ResumeMap.get (buildResumeMap (some rs)) u =
      (rs.find? (fun r => r.user_id == u)).map resumeSummaryOf := by
  unfold buildResumeMap
  simp only
  rw [resumeMap_get_foldl]
  rfl

theorem specSummaryEntry_eq_find (rs : List Resume) (u : String) :
    specSummaryEntry rs u = (rs.find? (fun r => r.user_id == u)).map specSummaryOf := by
  unfold specSummaryEntry
  induction rs with
  | nil => rfl
  | cons r t ih =>
    rw [List.find?_cons]
    by_cases hu : r.user_id = u
    · simp [List.filter_cons, hu]
    · have h1 : (r.user_id == u) = false := by simpa using hu
      rw [h1]
      simp only [List.filter_cons, hu, decide_False]
      exact ih

/-- C23 (summary map construction).  For every list of fetched resumes, the
summary map has an entry for user `u` iff some resume of the list belongs to
`u`; the entry is the one the specification words (the feedback summary of the
first resume of `u` when present and non-empty, else the empty string); and
resumes that come later in the list never change the entry. -/
theorem summary_map_construction (rs : List Resume) (u : String) :
    ((buildResumeMap (some rs)).has u = true ↔ ∃ r ∈ rs, r.user_id = u) ∧
      (buildResumeMap (some rs)).get u = specSummaryEntry rs u ∧
      ∀ later : List Resume, (∃ r ∈ rs, r.user_id = u) →
        (buildResumeMap (some (rs ++ later))).get u = (buildResumeMap (some rs)).get u := by
  have hget : ∀ l : List Resume, (buildResumeMap (some l)).get u = specSummaryEntry l u := by
    intro l
    rw [resumeMap_get_build, specSummaryEntry_eq_find]
    congr 1
    funext r
    exact resumeSummaryOf_eq_spec r
  refine ⟨?_, hget rs, ?_⟩
  · rw [resumeMap_has_eq, resumeMap_get_build, Option.isSome_map', List.find?_isSome]
    simp
  · rintro later ⟨r, hr, hru⟩
    rw [resumeMap_get_build, resumeMap_get_build, List.find?_append]
    cases hf : List.find? (fun r => r.user_id == u) rs with
    | some x => rfl
    | none =>
      rw [List.find?_eq_none] at hf
      exact absurd (by simpa using hru) (hf r hr)

/-- Worked instances of C23. -/
theorem summary_map_construction_witness :
    (buildResumeMap (some (staleRows.map Prod.snd ++ freshRows.map Prod.snd))).get "a" = some "" ∧
      (buildResumeMap (some (freshRows.map Prod.snd))).get "a" = some "Go, 8 years" ∧
      (buildResumeMap (some (freshRows.map Prod.snd))).get "b" = none :=
  ⟨(summary_map_construction _ "a").2.1.trans (by decide),
    (summary_map_construction _ "a").2.1.trans (by decide),
    (summary_map_construction _ "b").2.1.trans (by decide)⟩


theorem rankResult_shape {candidates : List Profile} {resumeMap : ResumeMap}
    {result : RerankedDoc} {x : RankedCandidate}
    (h : rankResult candidates resumeMap result = .ok x) :
    x.summary = some (orStr (orOpt (resumeMap.get x.id) x.profile.bio) "") ∧
      x.skills = x.profile.skills.getD [] := by
  unfold rankResult at h
  cases hf : candidates.find? (fun c => c.id == result.metadata.id) with
  | none => rw [hf] at h; cases h
  | some c =>
    rw [hf] at h
    simp only [Except.ok.injEq] at h
    subst h
    exact ⟨rfl, rfl⟩

theorem forall₂_rankResult_shape {candidates : List Profile} {resumeMap : ResumeMap}
    {xs : List RerankedDoc} {ys : List RankedCandidate}
    (h : List.Forall₂ (fun r y => rankResult candidates resumeMap r = .ok y) xs ys) :
    ∀ y ∈ ys, y.summary = some (orStr (orOpt (resumeMap.get y.id) y.profile.bio) "") ∧
      y.skills = y.profile.skills.getD [] := by
  induction h with
  | nil => simp
  | cons h1 _ ih =>
    intro y hy
    rcases List.mem_cons.mp hy with rfl | hy
    · exact rankResult_shape h1
    · exact ih y hy

theorem mem_fallbackRanking {candidates : List Profile} {resumeMap : ResumeMap}
    {x : RankedCandidate} (h : x ∈ fallbackRanking candidates resumeMap) :
    x.profile ∈ candidates ∧ x.id = x.profile.id ∧
      x.summary = orOpt (resumeMap.get x.id) x.profile.bio ∧
      x.skills = x.profile.skills.getD [] := by
  obtain ⟨i, hi, rfl⟩ := List.mem_iff_getElem.mp h
  obtain ⟨hp, heq⟩ := getElem_fallbackRanking candidates resumeMap i hi
  rw [heq]
  exact ⟨List.getElem_mem _, rfl, rfl, rfl⟩

/-- What the entries of the `candidates` list look like on either stage-2
path. -/
theorem ranked_entries {w : World} {req : Request} {query enhancedQuery : String}
    {candidates : List Profile} {stage1Method : String}
    (h : ReachesRanking w req query enhancedQuery candidates stage1Method) :
    ∃ ranked, (POST w req).1.candidates = some ranked ∧
      (∀ x ∈ ranked, x.profile ∈ candidates ∧ x.id = x.profile.id ∧
        x.skills = x.profile.skills.getD []) ∧
      (((stage2 w candidates (resumeMapOf w candidates) enhancedQuery).1.2 = "rerank" ∧
          ∀ x ∈ ranked, x.summary =
            some (orStr (orOpt ((resumeMapOf w candidates).get x.id) x.profile.bio) "")) ∨
        ((stage2 w candidates (resumeMapOf w candidates) enhancedQuery).1.2 =
            "fallback_no_rerank" ∧ ranked.length ≤ 12 ∧
          ∀ x ∈ ranked, x.summary =
            orOpt ((resumeMapOf w candidates).get x.id) x.profile.bio)) := by
  refine ⟨_, candidates_of_reaches h, ?_⟩
  cases ht : tryRerank w candidates (resumeMapOf w candidates) enhancedQuery with
  | ok ranked =>
    rw [stage2_of_ok ht]
    have hf : ∃ results, List.Forall₂
        (fun r y => rankResult candidates (resumeMapOf w candidates) r = .ok y)
        results ranked := by
      unfold tryRerank at ht
      split at ht
      · cases ht
      · exact ⟨_, (mapM_except_ok_iff _ _ _).mp ht⟩
    obtain ⟨results, hf⟩ := hf
    have h1 := (forall₂_rankResult hf).2
    have h2 := forall₂_rankResult_shape hf
    exact ⟨fun x hx => ⟨(h1 x hx).1, (h1 x hx).2, (h2 x hx).2⟩,
      Or.inl ⟨rfl, fun x hx => (h2 x hx).1⟩⟩
  | error e =>
    rw [stage2_of_error ht]
    refine ⟨fun x hx => ?_, Or.inr ⟨rfl, ?_, fun x hx => (mem_fallbackRanking hx).2.2.1⟩⟩
    · obtain ⟨a, b, _, d⟩ := mem_fallbackRanking hx
      exact ⟨a, b, d⟩
    · show (fallbackRanking candidates (resumeMapOf w candidates)).length ≤ 12
      rw [length_fallbackRanking]
      exact min_le_left _ _

theorem find?_latest {rows : List (Nat × Resume)} {u : String} {row : Nat × Resume}
    (hsorted : rows.Pairwise (fun a b => b.1 ≤ a.1)) (hrow : row ∈ rows)
    (hu : row.2.user_id = u)
    (hlatest : ∀ row' ∈ rows, row'.2.user_id = u → row' = row ∨ row'.1 < row.1) :
    (rows.map Prod.snd).find? (fun r => r.user_id == u) = some row.2 := by
  induction rows with
  | nil => cases hrow
  | cons a t ih =>
    rw [List.map_cons, List.find?_cons]
    rw [List.pairwise_cons] at hsorted
    by_cases ha : a.2.user_id = u
    · have hb : (a.2.user_id == u) = true := by simpa using ha
      rw [hb]
      rcases hlatest a (List.mem_cons_self _ _) ha with h | h
      · rw [h]
      · rcases List.mem_cons.mp hrow with h' | h'
        · rw [h'] at h
          exact absurd h (lt_irrefl _)
        · exact absurd h (not_lt.mpr (hsorted.1 row h'))
    · have hb : (a.2.user_id == u) = false := by simpa using ha
      rw [hb]
      have hrow' : row ∈ t := by
        rcases List.mem_cons.mp hrow with h' | h'
        · rw [h'] at hu
          exact absurd hu ha
        · exact h'
      exact ih hsorted.2 hrow' (fun row' hr' => hlatest row' (List.mem_cons_of_mem _ hr'))

/-- C24 fails as stated: candidate `a` has two resumes, fetched newest first;
the newest has no feedback, so its summary is empty, and the `summary` of the
entry is the candidate's bio, not a summary taken from the newest resume. -/
theorem latest_resume_without_summary_gives_bio :
    staleRows.Pairwise (fun a b => b.1 ≤ a.1) ∧
      staleResumeWorld.resumesIn (samplePool.map (fun c => c.id)) =
        some (staleRows.map Prod.snd) ∧
      staleRows.map (fun row => (row.1, row.2.user_id, specSummaryOf row.2)) =
        [(2, "a", ""), (1, "a", "Go, 8 years")] ∧
      (POST staleResumeWorld sampleRequest).1.candidates.map
          (fun l => l.map (fun x => (x.id, x.summary))) =
        some [("a", some "Backend engineer")] := by
  refine ⟨by decide, rfl, by decide, by decide!⟩

/-- C24 (amended).  When the resumes are fetched in descending upload-time
order, for every ranked candidate whose resume with the strictly latest upload
time has a non-empty summary, the `summary` of that candidate's entry is that
summary, on both the rerank path and the fallback path. -/
theorem latest_resume_summary_wins (w : World) (req : Request) (query enhancedQuery : String)
    (candidates : List Profile) (stage1Method : String) (rows : List (Nat × Resume))
    (hreach : ReachesRanking w req query enhancedQuery candidates stage1Method)
    (hfetch : w.resumesIn (candidates.map (fun c => c.id)) = some (rows.map Prod.snd))
    (hsorted : rows.Pairwise (fun a b => b.1 ≤ a.1)) :
    ∃ ranked, (POST w req).1.candidates = some ranked ∧
      ∀ x ∈ ranked, ∀ row ∈ rows, row.2.user_id = x.id →
        (∀ row' ∈ rows, row'.2.user_id = x.id → row' = row ∨ row'.1 < row.1) →
        specSummaryOf row.2 ≠ "" → x.summary = some (specSummaryOf row.2) := by
  obtain ⟨ranked, hc, _, hsum⟩ := ranked_entries hreach
  refine ⟨ranked, hc, ?_⟩
  intro x hx row hrow hu hlatest hne
  have hget : (resumeMapOf w candidates).get x.id = some (specSummaryOf row.2) := by
    unfold resumeMapOf
    rw [hfetch, resumeMap_get_build, find?_latest hsorted hrow hu hlatest, Option.map_some',
      resumeSummaryOf_eq_spec]
  rcases hsum with ⟨_, h⟩ | ⟨_, _, h⟩
  · rw [h x hx, hget]
    simp only [orOpt, orStr, if_neg hne]
  · rw [h x hx, hget]
    simp only [orOpt, if_neg hne]

/-- Witness of the amended C24: candidate `a` has two resumes with summaries. -/
theorem latest_resume_summary_wins_witness :
    ∃ ranked, (POST { sampleWorld with resumesIn := fun _ => some (freshRows.map Prod.snd) }
        sampleRequest).1.candidates = some ranked ∧
      ∀ x ∈ ranked, ∀ row ∈ freshRows, row.2.user_id = x.id →
        (∀ row' ∈ freshRows, row'.2.user_id = x.id → row' = row ∨ row'.1 < row.1) →
        specSummaryOf row.2 ≠ "" → x.summary = some (specSummaryOf row.2) :=
  latest_resume_summary_wins _ sampleRequest "go developer" "go developer" samplePool
    "vector_search" freshRows (by unfold ReachesRanking Composes; decide) rfl (by decide)

/-- C25 at its failing input: the rerank call throws and candidate `b` has no
resume and a `null` bio; line 179 gives `summary = null` for `b`, where the
rerank path (line 164) gives the empty string for the same candidate. -/
theorem fallback_summary_can_be_null :
    (samplePool.map (fun c => (c.id, c.bio)) =
        [("a", some "Backend engineer"), ("b", none)]) ∧
      (resumeMapOf rerankDownWorld samplePool).get "b" = none ∧
      (POST rerankDownWorld sampleRequest).1.candidates.map
          (fun l => l.map (fun x => (x.id, x.summary))) =
        some [("a", some "Go, 8 years"), ("b", none)] ∧
      (POST { sampleWorld with compressDocuments := fun _ _ => .ok [⟨⟨"b", 9 / 10⟩⟩] }
          sampleRequest).1.candidates.map (fun l => l.map (fun x => (x.id, x.summary))) =
        some [("b", some "")] := by
  refine ⟨by decide, by decide, by decide!, by decide!⟩

/-- C28 (ranked entries come from the pool).  On both stage-2 paths, every
entry of the `candidates` list has a profile that is an element of the pool, an
id equal to that profile's id, and a skills list equal to the profile's skill
list, or `[]` when the profile has none; on the fallback path the list has at
most 12 entries. -/
theorem ranked_entries_come_from_pool (w : World) (req : Request)
    (query enhancedQuery : String) (candidates : List Profile) (stage1Method : String)
    (hreach : ReachesRanking w req query enhancedQuery candidates stage1Method) :
    ∃ ranked, (POST w req).1.candidates = some ranked ∧
      (∀ x ∈ ranked, x.profile ∈ candidates ∧ x.id = x.profile.id ∧
        x.skills = (match x.profile.skills with
          | some skills => skills
          | none => [])) ∧
      ((stage2 w candidates (resumeMapOf w candidates) enhancedQuery).1.2 =
          "fallback_no_rerank" → ranked.length ≤ 12) := by
  obtain ⟨ranked, hc, hx, hpath⟩ := ranked_entries hreach
  refine ⟨ranked, hc, ?_, ?_⟩
  · intro x hmem
    obtain ⟨a, b, c⟩ := hx x hmem
    refine ⟨a, b, ?_⟩
    rw [c]
    cases x.profile.skills <;> rfl
  · intro hm
    rcases hpath with ⟨h, _⟩ | ⟨_, h, _⟩
    · rw [h] at hm
      exact absurd hm (by decide)
    · exact h

/-- Witness of C28 on the fallback path, with a pool of thirteen. -/
theorem ranked_entries_come_from_pool_witness :
    ∃ ranked, (POST wideRerankDownWorld sampleRequest).1.candidates = some ranked ∧
      (∀ x ∈ ranked, x.profile ∈ widePool ∧ x.id = x.profile.id ∧
        x.skills = (match x.profile.skills with
          | some skills => skills
          | none => [])) ∧
      ((stage2 wideRerankDownWorld widePool (resumeMapOf wideRerankDownWorld widePool)
          "go developer").1.2 = "fallback_no_rerank" → ranked.length ≤ 12) :=
  ranked_entries_come_from_pool wideRerankDownWorld sampleRequest "go developer"
    "go developer" widePool "vector_search" (by unfold ReachesRanking Composes; decide)

/-! ## Document and bound claims -/

theorem orStr_eq_specValueOr (a : Option String) (b : String) : orStr a b = specValueOr a b := by
  unfold orStr specValueOr
  cases a <;> rfl

theorem pageContentOf_eq_spec (c : Profile) (resumeMap : ResumeMap) :
    pageContentOf c resumeMap = specDocumentText c (resumeMap.get c.id) := by
  unfold pageContentOf specDocumentText specDocumentFields
  simp only [orStr_eq_specValueOr]
  generalize interpolate c.full_name = x1
  generalize specValueOr c.location "N/A" = x2
  generalize specValueOr c.availability_status "N/A" = x3
  generalize specValueOr c.job_title "N/A" = x4
  generalize specValueOr c.experience_level "N/A" = x5
  generalize specValueOr c.bio "" = x6
  generalize specValueOr (resumeMap.get c.id) "No resume summary available." = x8
  have hx7 : (match c.skills with
      | some skills => ", ".intercalate skills
      | none => "N/A") = (match c.skills with
      | none => "N/A"
      | some skills => ", ".intercalate skills) := by
    cases c.skills <;> rfl
  rw [hx7]
  generalize (match c.skills with
      | none => "N/A"
      | some skills => ", ".intercalate skills) = x7
  refine congrArg jsTrim ?_
  simp only [List.map, String.join, List.foldl]
  apply String.ext
  simp only [String.data_append, List.append_assoc]
  generalize x1.data = y1
  generalize x2.data = y2
  generalize x3.data = y3
  generalize x4.data = y4
  generalize x5.data = y5
  generalize x6.data = y6
  generalize x7.data = y7
  generalize x8.data = y8
  rfl


theorem rerank_call_unique {w : World} {req : Request} {query enhancedQuery : String}
    {candidates : List Profile} {stage1Method : String}
    (h : ReachesRanking w req query enhancedQuery candidates stage1Method) :
    Call.rerank (documentsToRerank candidates (resumeMapOf w candidates)) enhancedQuery ∈
        (POST w req).2 ∧
      ∀ docs q, Call.rerank docs q ∈ (POST w req).2 →
        docs = documentsToRerank candidates (resumeMapOf w candidates) ∧
          q = enhancedQuery := by
  rw [POST_calls_of_reaches h]
  constructor
  · simp
  · intro docs q hmem
    simp only [List.mem_cons, List.mem_append, List.mem_singleton, List.not_mem_nil, or_false,
      reduceCtorEq, false_or, Call.rerank.injEq] at hmem
    rcases hmem with hm | hm | hm
    · obtain ⟨_, hj⟩ := addJobContext_calls _ _ _ _ hm
      cases hj
    · rcases retrieve_calls _ _ _ hm with ⟨_, _, hc⟩ | ⟨_, hc⟩ | hc <;> cases hc
    · exact hm

/-- C26 (composite documents).  The run issues exactly one rerank call; it
receives one document per pool candidate, in pool order, tagged with the
candidate's id, whose text is the trimmed list of the labelled fields Name,
Location, Availability, Title, Experience Level, Bio, Skills and Resume
Summary, with the placeholders of the specification (`specDocumentText`). -/
theorem composite_documents (w : World) (req : Request) (query enhancedQuery : String)
    (candidates : List Profile) (stage1Method : String)
    (hreach : ReachesRanking w req query enhancedQuery candidates stage1Method) :
    ∃ docs, Call.rerank docs enhancedQuery ∈ (POST w req).2 ∧
      (∀ docs' q, Call.rerank docs' q ∈ (POST w req).2 → docs' = docs ∧ q = enhancedQuery) ∧
      docs = candidates.map (fun c =>
        { pageContent := specDocumentText c ((resumeMapOf w candidates).get c.id)
          metadata := { id := c.id } }) ∧
      docs.length = candidates.length ∧
      ∀ i (hi : i < docs.length), ∃ hp : i < candidates.length,
        docs[i].metadata.id = candidates[i].id ∧
        docs[i].pageContent =
          specDocumentText candidates[i] ((resumeMapOf w candidates).get candidates[i].id) := by
  obtain ⟨hmem, huniq⟩ := rerank_call_unique hreach
  have hdocs : documentsToRerank candidates (resumeMapOf w candidates) =
      candidates.map (fun c =>
        { pageContent := specDocumentText c ((resumeMapOf w candidates).get c.id)
          metadata := { id := c.id } }) := by
    unfold documentsToRerank
    apply List.map_congr_left
    intro c _
    rw [pageContentOf_eq_spec]
  refine ⟨_, hmem, huniq, hdocs, ?_, ?_⟩
  · rw [hdocs, List.length_map]
  · intro i hi
    have hp : i < candidates.length := by
      rw [hdocs, List.length_map] at hi
      exact hi
    refine ⟨hp, ?_, ?_⟩
    · simp only [hdocs, List.getElem_map]
    · simp only [hdocs, List.getElem_map]

/-- Witness of C26 on the sample world, with the text of a document whose
fields are all missing. -/
theorem composite_documents_witness :
    (specDocumentText (sampleProfile "b" none) none =
        "Name: Candidate b\n        Location: N/A\n        Availability: N/A\n        Title: N/A\n        Experience Level: N/A\n        Bio: \n        Skills: N/A\n        Resume Summary: No resume summary available.") ∧
    ∃ docs, Call.rerank docs "go developer" ∈ (POST sampleWorld sampleRequest).2 ∧
      (∀ docs' q, Call.rerank docs' q ∈ (POST sampleWorld sampleRequest).2 →
        docs' = docs ∧ q = "go developer") ∧
      docs = samplePool.map (fun c =>
        { pageContent := specDocumentText c ((resumeMapOf sampleWorld samplePool).get c.id)
          metadata := { id := c.id } }) ∧
      docs.length = samplePool.length ∧
      ∀ i (hi : i < docs.length), ∃ hp : i < samplePool.length,
        docs[i].metadata.id = samplePool[i].id ∧
        docs[i].pageContent = specDocumentText samplePool[i]
          ((resumeMapOf sampleWorld samplePool).get samplePool[i].id) :=
  ⟨by decide!,
    composite_documents sampleWorld sampleRequest "go developer" "go developer" samplePool
      "vector_search" (by unfold ReachesRanking Composes; decide)⟩

theorem vectorTier_pool_source (w : World) (enhancedQuery : String)
    (h : (vectorTier w enhancedQuery).1.1 ≠ []) :
    ∃ vectorResults, w.similaritySearch enhancedQuery initialPoolSize = .ok vectorResults ∧
      (w.profilesIn (vectorResults.filterMap truthyId)).data =
        some (vectorTier w enhancedQuery).1.1 := by
  unfold vectorTier at h ⊢
  split
  · rename_i hs
    rw [hs] at h
    exact absurd rfl h
  · rename_i vectorResults hs
    rw [hs] at h
    simp only at h
    refine ⟨vectorResults, hs, ?_⟩
    split
    · rename_i hlen
      rw [if_pos hlen] at h
      dsimp only at h ⊢
      split
      · rename_i vc herr hdata
        rw [herr, hdata] at h
        simp only at h
        split
        · exact hdata
        · rename_i hl
          rw [if_neg hl] at h
          exact absurd rfl h
      · rename_i hno
        split at h
        · rename_i vc herr hdata
          exact absurd hdata (hno vc herr)
        · exact absurd rfl h
    · rename_i hlen
      rw [if_neg hlen] at h
      exact absurd rfl h

/-- C27 (pool and batch bound).  Provided the vector store returns at most
the requested 50 results, the bulk lookup returns profiles with pairwise
distinct ids taken from the requested ids, and the full scan honours its limit
of 50, the pool has at most 50 candidates and the documents of the one rerank
call are as many as the pool, hence at most 50. -/
theorem pool_and_batch_bound (w : World) (req : Request) (query enhancedQuery : String)
    (candidates : List Profile) (stage1Method : String)
    (hreach : ReachesRanking w req query enhancedQuery candidates stage1Method)
    (hvec : ∀ rs, w.similaritySearch enhancedQuery initialPoolSize = .ok rs →
      rs.length ≤ initialPoolSize)
    (hbulk : ∀ rs ps, w.similaritySearch enhancedQuery initialPoolSize = .ok rs →
      (w.profilesIn (rs.filterMap truthyId)).data = some ps →
      (ps.map (fun p => p.id)).Nodup ∧ ∀ p ∈ ps, p.id ∈ rs.filterMap truthyId)
    (hscan : ∀ ps, (w.applicantsLimit initialPoolSize).data = some ps →
      ps.length ≤ initialPoolSize) :
    candidates.length ≤ 50 ∧
      ∃ docs, Call.rerank docs enhancedQuery ∈ (POST w req).2 ∧
        (∀ docs' q, Call.rerank docs' q ∈ (POST w req).2 → docs' = docs) ∧
        docs.length = candidates.length ∧ docs.length ≤ 50 := by
  have hpool : candidates.length ≤ 50 := by
    have hr := hreach.2
    by_cases hv : (vectorTier w enhancedQuery).1.1 = []
    · rw [retrieve_of_empty_vector hv] at hr
      simp only at hr
      split at hr
      · cases hr
      · split at hr
        · cases hr
        · rename_i allApplicants hdata
          split at hr
          · cases hr
          · simp only [Stage1.pool.injEq] at hr
            rw [← hr.1]
            exact hscan _ hdata
    · rw [retrieve_of_nonempty_vector hv] at hr
      simp only [Stage1.pool.injEq] at hr
      obtain ⟨rs, hs, hdata⟩ := vectorTier_pool_source w enhancedQuery hv
      rw [hr.1] at hdata
      obtain ⟨hnd, hsub⟩ := hbulk rs candidates hs hdata
      have h1 : (candidates.map (fun p => p.id)).length ≤ (rs.filterMap truthyId).length := by
        apply List.Subperm.length_le
        apply List.subperm_of_subset hnd
        intro i hi
        obtain ⟨p, hp, rfl⟩ := List.mem_map.mp hi
        exact hsub p hp
      rw [List.length_map] at h1
      have h2 := List.length_filterMap_le truthyId rs
      have h3 := hvec rs hs
      have h4 : initialPoolSize = 50 := rfl
      omega
  obtain ⟨hmem, huniq⟩ := rerank_call_unique hreach
  have hlen : (documentsToRerank candidates (resumeMapOf w candidates)).length =
      candidates.length := by
    unfold documentsToRerank
    rw [List.length_map]
  exact ⟨hpool, _, hmem, fun d q h => (huniq d q h).1, hlen, by rw [hlen]; exact hpool⟩

/-- Witness of C27 on the sample world. -/
theorem pool_and_batch_bound_witness :
    samplePool.length ≤ 50 ∧
      ∃ docs, Call.rerank docs "go developer" ∈ (POST sampleWorld sampleRequest).2 ∧
        (∀ docs' q, Call.rerank docs' q ∈ (POST sampleWorld sampleRequest).2 → docs' = docs) ∧
        docs.length = samplePool.length ∧ docs.length ≤ 50 :=
  pool_and_batch_bound sampleWorld sampleRequest "go developer" "go developer" samplePool
    "vector_search" (by unfold ReachesRanking Composes; decide)
    (by
      intro rs h
      have h' : rs = [⟨some ⟨some "a"⟩⟩, ⟨some ⟨some "b"⟩⟩, ⟨none⟩] := by
        cases h
        rfl
      rw [h']
      decide)
    (by
      intro rs ps h hd
      have h' : rs = [⟨some ⟨some "a"⟩⟩, ⟨some ⟨some "b"⟩⟩, ⟨none⟩] := by
        cases h
        rfl
      have hd' : ps = samplePool := by
        cases hd
        rfl
      rw [h', hd']
      decide)
    (by
      intro ps h
      cases h
      decide)

/-! ## Missing job -/

theorem runPipeline_fst_congr (w : World) (hist : List Turn) (j₁ j₂ : Option String)
    (query : String)
    (h : (addJobContext w j₁ (composeHistory query hist)).1 =
      (addJobContext w j₂ (composeHistory query hist)).1) :
    (runPipeline w hist j₁ query).1 = (runPipeline w hist j₂ query).1 := by
  unfold runPipeline
  generalize addJobContext w j₁ (composeHistory query hist) = r₁ at h ⊢
  generalize addJobContext w j₂ (composeHistory query hist) = r₂ at h ⊢
  obtain ⟨a₁, c₁⟩ := r₁
  obtain ⟨a₂, c₂⟩ := r₂
  simp only at h
  subst h
  cases a₁ <;> rfl

/-- C29 (missing job is silently ignored).  For every request that names a
jobId for which the job lookup returns no record, the composed query is the
one composed for the same raw query and history with no jobId, and the
response is the response to the same request without jobId. -/
theorem missing_job_is_ignored (w : World) (req : Request) (jid : String)
    (hjid : req.jobId = some jid) (hmiss : w.jobSingle jid = none) :
    (∀ q h, (addJobContext w (some jid) (composeHistory q h)).1 = .ok (composeHistory q h) ∧
        (addJobContext w (some jid) (composeHistory q h)).1 =
          (addJobContext w none (composeHistory q h)).1) ∧
      (POST w req).1 = (POST w { req with jobId := none }).1 := by
  have hadd : ∀ E, (addJobContext w (some jid) E).1 = .ok E := by
    intro E
    unfold addJobContext
    simp only
    split
    · rfl
    · rw [hmiss]
  refine ⟨fun q h => ⟨hadd _, by rw [hadd]; rfl⟩, ?_⟩
  unfold POST
  simp only [hjid]
  split
  · rfl
  · split
    · rfl
    · split
      · rfl
      · split
        · rfl
        · simp only
          exact runPipeline_fst_congr w _ _ _ _ (by rw [hadd]; rfl)

/-- Witness of C29: the sample world has no job at all; the run ends with
status 200. -/
theorem missing_job_is_ignored_witness :
    ((∀ q h, (addJobContext sampleWorld (some "gone") (composeHistory q h)).1 =
          .ok (composeHistory q h) ∧
        (addJobContext sampleWorld (some "gone") (composeHistory q h)).1 =
          (addJobContext sampleWorld none (composeHistory q h)).1) ∧
      (POST sampleWorld missingJobRequest).1 =
        (POST sampleWorld { missingJobRequest with jobId := none }).1) ∧
    (POST sampleWorld missingJobRequest).1.status = 200 :=
  ⟨missing_job_is_ignored sampleWorld missingJobRequest "gone" rfl rfl, by decide!⟩

/-! ## The salary sorting key -/

/-- C30 at its failing input: `\d+` stops at the comma, so the first match of
`$140,000 - $180,000` is `140` and `extractSalaryNumber` returns 140, not
140000; without separators the first figure is returned, and a missing salary
or one without digits gives 0. -/
theorem extractSalaryNumber_stops_at_comma :
    extractSalaryNumber (some "$140,000 - $180,000") = JsNumber.finite 140 ∧
      digitRuns "$140,000 - $180,000".data [] =
        ["140".data, "000".data, "180".data, "000".data] ∧
      extractSalaryNumber (some "140000 - 180000") = JsNumber.finite 140000 ∧
      extractSalaryNumber none = JsNumber.finite 0 ∧
      extractSalaryNumber (some "") = JsNumber.finite 0 ∧
      extractSalaryNumber (some "Negotiable") = JsNumber.finite 0 := by
  refine ⟨by decide!, by decide, by decide!, rfl, rfl, by decide⟩

theorem digitRuns_of_no_digit (cs : List Char) (h : ∀ c ∈ cs, c.isDigit = false) :
    digitRuns cs [] = [] := by
  induction cs with
  | nil => rfl
  | cons c t ih =>
    unfold digitRuns
    rw [h c (List.mem_cons_self _ _)]
    simp only [Bool.false_eq_true, if_false, if_true]
    exact ih (fun c' hc' => h c' (List.mem_cons_of_mem _ hc'))

/-- The part of C30 that holds: a missing salary and a salary without any
digit give 0. -/
theorem extractSalaryNumber_of_no_digit (salary : Option String)
    (h : ∀ s, salary = some s → ∀ c ∈ s.data, c.isDigit = false) :
    extractSalaryNumber salary = JsNumber.finite 0 := by
  unfold extractSalaryNumber
  cases salary with
  | none => rfl
  | some s =>
    simp only
    split
    · rfl
    · rw [digitRuns_of_no_digit s.data (h s rfl)]

/-- The `parseInt` of the digits of the largest double is that double; from
`2 ^ 1024` on, and so for a figure of 400 digits, it is `Infinity`. -/
theorem parseIntDigits_overflow :
    parseIntDigits (Nat.repr ((2 ^ 53 - 1) * 2 ^ 971)).data =
        JsNumber.finite (((2 ^ 53 - 1) * 2 ^ 971 : ℕ) : ℚ) ∧
      parseIntDigits (Nat.repr (2 ^ 1024)).data = JsNumber.infinity ∧
      parseIntDigits (List.replicate 400 '9') = JsNumber.infinity := by
  refine ⟨by decide!, by decide!, by decide!⟩

end TalentMatch
